import Mathlib

/-!
# lockchart: lock primitive, two-process trial and matrix sweep

A shallow embedding of `lockchart.c`.  The operating system is an oracle: every
system call the program issues is answered by a function of the calls issued so
far.  A run produces an outcome (a returned value, or program termination with
an exit status) together with the chronological trace of the system calls and
of the diagnostic output.

`fork` is modelled from the point of view of one process: the oracle's answer
is the value `fork` returns in the process being followed.  A negative answer
is a failed fork, the answer `0` follows the child, a positive answer follows
the parent.
-/

namespace Lockchart

/-! ## Data model -/

/-- The `enum mode` of the source: `mread = 0`, `mwrite`, `mread_write`. -/
inductive Mode where
  | mread
  | mwrite
  | mread_write
  deriving DecidableEq, Repr

/-- The `enum lock` of the source: `lexclusive = 0`, `lshared`, `lnone`. -/
inductive Lock where
  | lexclusive
  | lshared
  | lnone
  deriving DecidableEq, Repr

/-- Numeric value of an `enum mode` constant. -/
def Mode.toNat : Mode → Nat
  | .mread => 0
  | .mwrite => 1
  | .mread_write => 2

/-- Numeric value of an `enum lock` constant. -/
def Lock.toNat : Lock → Nat
  | .lexclusive => 0
  | .lshared => 1
  | .lnone => 2

/-- Number of access modes (`n_modes`). -/
def n_modes : Nat := 3

/-- Number of lock dispositions (`n_locks`). -/
def n_locks : Nat := 3

/-- The `enum locktype` constant `tsharemode = 0`.  A value of `enum locktype`
is kept as an integer, so that the `default:` arm of the `switch` in `lock`
is represented. -/
def tsharemode : Int := 0

/-- The `enum locktype` constant `tflock = 1`. -/
def tflock : Int := 1

/-- The `enum locktype` constant `tfcntl = 2`. -/
def tfcntl : Int := 2

/-- The constants and status macros that the source takes from the system
headers (`fcntl.h`, `sys/file.h`, `unistd.h`, `sys/wait.h`).  Their values are
not part of the program, so the embedding is parametric in them. -/
structure Sys where
  O_RDONLY : Nat
  O_WRONLY : Nat
  O_RDWR : Nat
  O_NONBLOCK : Nat
  O_SHLOCK : Nat
  O_EXLOCK : Nat
  LOCK_SH : Nat
  LOCK_EX : Nat
  LOCK_NB : Nat
  F_RDLCK : Nat
  F_WRLCK : Nat
  F_SETLK : Nat
  F_SETLKW : Nat
  SEEK_SET : Nat
  WIFEXITED : Int → Bool
  WEXITSTATUS : Int → Int

/-- The header values of a BSD / Darwin system, the platform that provides
`O_SHLOCK` and `O_EXLOCK`.  Used to evaluate the program on concrete inputs. -/
def darwin : Sys where
  O_RDONLY := 0
  O_WRONLY := 1
  O_RDWR := 2
  O_NONBLOCK := 4
  O_SHLOCK := 16
  O_EXLOCK := 32
  LOCK_SH := 1
  LOCK_EX := 2
  LOCK_NB := 4
  F_RDLCK := 1
  F_WRLCK := 3
  F_SETLK := 8
  F_SETLKW := 9
  SEEK_SET := 0
  WIFEXITED := fun status => status % 128 == 0
  WEXITSTATUS := fun status => (status / 256) % 256

/-- The table `modes[]`. -/
def modes (sys : Sys) : Mode → Nat
  | .mread => sys.O_RDONLY
  | .mwrite => sys.O_WRONLY
  | .mread_write => sys.O_RDWR

/-- The table `locks[]`. -/
def locks (sys : Sys) : Lock → Nat
  | .lnone => 0
  | .lshared => sys.O_SHLOCK
  | .lexclusive => sys.O_EXLOCK

/-- The table `flocks[]`. -/
def flocks (sys : Sys) : Lock → Nat
  | .lnone => 0
  | .lshared => sys.LOCK_SH
  | .lexclusive => sys.LOCK_EX

/-- The table `fcntls[]`. -/
def fcntls (sys : Sys) : Lock → Nat
  | .lnone => 0
  | .lshared => sys.F_RDLCK
  | .lexclusive => sys.F_WRLCK

/-- The table `mode_names[]`. -/
def mode_names : Mode → String
  | .mread => "read only"
  | .mwrite => "write only"
  | .mread_write => "read/write"

/-- The table `lock_names[]`. -/
def lock_names : Lock → String
  | .lnone => "no"
  | .lshared => "shared"
  | .lexclusive => "exclusive"

/-- The table `locktype_names[]`.  `main` only ever indexes it with one of the
three mechanism constants; any other index is outside the table and is given
the empty string here. -/
def locktype_names (locktype : Int) : String :=
  if locktype = tsharemode then "sharemode"
  else if locktype = tflock then "flock"
  else if locktype = tfcntl then "fcntl"
  else ""

/-! ## System calls, traces and the oracle -/

/-- The fields of `struct flock` that the program initialises. -/
structure FlockArg where
  l_start : Int
  l_len : Int
  l_whence : Nat
  l_type : Nat
  deriving DecidableEq, Repr

/-- A request to the operating system. -/
inductive Call where
  | open (path : String) (flags : Nat)
  | flock (fd : Int) (flags : Nat)
  | fcntl (fd : Int) (cmd : Nat) (arg : FlockArg)
  | fork
  | waitpid (pid : Int) (options : Int)
  | close (fd : Int)
  deriving DecidableEq, Repr

/-- An argument of a `printf` call. -/
inductive Arg where
  | int (i : Int)
  | str (s : String)
  deriving DecidableEq, Repr

/-- An observable event of a run: a system call with the value it returned,
a `printf` with its format string and arguments, or a `perror`. -/
inductive Ev where
  | call (c : Call) (r : Int)
  | printf (fmt : String) (args : List Arg)
  | perror (s : String)
  deriving DecidableEq, Repr

/-- The operating system as an oracle: given the system calls answered so far
(with their answers) and the current request, the value the request returns.
For `waitpid` the answer is the value stored into `status`; the program
ignores what `waitpid` itself returns. -/
abbrev OS := List (Call × Int) → Call → Int

/-- The system calls of a trace, with their answers, in order. -/
def calls : List Ev → List (Call × Int)
  | [] => []
  | Ev.call c r :: tr => (c, r) :: calls tr
  | Ev.printf _ _ :: tr => calls tr
  | Ev.perror _ :: tr => calls tr

/-- The diagnostic output of a trace (everything that is not a system call). -/
def output : List Ev → List Ev
  | [] => []
  | Ev.call _ _ :: tr => output tr
  | e :: tr => e :: output tr

/-- How a function of the program ends: it returns a value, or the program
terminates through `exit(code)`. -/
inductive Outcome (α : Type) where
  | ret (a : α)
  | exit (code : Nat)
  deriving DecidableEq, Repr

/-- Issue one system call: ask the oracle and record the call in the trace. -/
def syscall (os : OS) (tr : List Ev) (c : Call) : Int × List Ev :=
  (os (calls tr) c, tr ++ [Ev.call c (os (calls tr) c)])

/-! ## The lock primitive -/

/-- The function `lock(fd, lock, locktype)`, running with the global `verbose`
against the oracle `os`, extending the trace `tr`. -/
def lock (sys : Sys) (os : OS) (verbose : Int) (tr : List Ev)
    (fd : Int) (lk : Lock) (locktype : Int) : Outcome Bool × List Ev :=
  if lk = Lock.lnone then
    (Outcome.ret true, tr)
  else if locktype = tsharemode then
    -- This is done upon open.
    (Outcome.ret true, tr)
  else if locktype = tflock then
    let flags := flocks sys lk ||| sys.LOCK_NB
    let (result, tr1) := syscall os tr (Call.flock fd flags)
    if result < 0 then
      if verbose ≠ 0 then
        (Outcome.ret false, tr1 ++ [Ev.printf "flock(%d, %02x)\n" [Arg.int fd, Arg.int flags]])
      else
        (Outcome.ret false, tr1)
    else
      if verbose > 1 then
        (Outcome.ret true, tr1 ++ [Ev.printf "flock(%d, %02x)\n" [Arg.int fd, Arg.int flags]])
      else
        (Outcome.ret true, tr1)
  else if locktype = tfcntl then
    let flock_lock : FlockArg :=
      { l_start := 0, l_len := 0, l_whence := sys.SEEK_SET, l_type := fcntls sys lk }
    let (result, tr1) := syscall os tr (Call.fcntl fd sys.F_SETLK flock_lock)
    if result < 0 then
      if verbose ≠ 0 then
        (Outcome.ret false,
          tr1 ++ [Ev.printf "fcntl(%d, F_SETLK, \x7b.l_type = %02x\x7d)\n"
            [Arg.int fd, Arg.int (fcntls sys lk)]])
      else
        (Outcome.ret false, tr1)
    else
      if verbose > 1 then
        (Outcome.ret true,
          tr1 ++ [Ev.printf "fcntl(%d, F_SETLK, \x7b.l_type = %02x\x7d)\n"
            [Arg.int fd, Arg.int (fcntls sys lk)]])
      else
        (Outcome.ret true, tr1)
  else
    (Outcome.ret true, tr)

/-! ## The two-process trial -/

/-- The function `test(path1, flags1, lock1, locktype1, path2, flags2, lock2,
locktype2)`.  The branch `pid == 0` is the child: it ends the process with
`exit(0)` or `exit(1)` and never returns to the caller. -/
def test (sys : Sys) (os : OS) (verbose : Int) (tr : List Ev)
    (path1 : String) (flags1 : Nat) (lock1 : Lock) (locktype1 : Int)
    (path2 : String) (flags2 : Nat) (lock2 : Lock) (locktype2 : Int) :
    Outcome Bool × List Ev :=
  -- Sharemodes need to be applied in open arguments before opening,
  -- rather than to fd afterwards
  let flags1 := if locktype1 = tsharemode then flags1 ||| locks sys lock1 else flags1
  let flags2 := if locktype2 = tsharemode then flags2 ||| locks sys lock2 else flags2
  let (fd1, tr) := syscall os tr (Call.open path1 (flags1 ||| sys.O_NONBLOCK))
  if fd1 < 0 then
    if verbose ≠ 0 then
      (Outcome.ret false,
        tr ++ [Ev.printf "outer open(%s, %02x)\n" [Arg.str path1, Arg.int flags1]])
    else
      (Outcome.ret false, tr)
  else
    let tr :=
      if verbose > 1 then
        tr ++ [Ev.printf "outer open(%s, %02x)\n" [Arg.str path1, Arg.int flags1]]
      else tr
    match lock sys os verbose tr fd1 lock1 locktype1 with
    | (Outcome.exit code, tr) => (Outcome.exit code, tr)
    | (Outcome.ret ok, tr) =>
      if !ok then
        (Outcome.ret false, tr)
      else
        let (pid, tr) := syscall os tr Call.fork
        if pid < 0 then
          (Outcome.exit 1, tr ++ [Ev.perror "fork"])
        else if pid = 0 then
          let (fd2, tr) := syscall os tr (Call.open path2 (flags2 ||| sys.O_NONBLOCK))
          if fd2 < 0 then
            if verbose ≠ 0 then
              (Outcome.exit 1,
                tr ++ [Ev.printf "inner open(%s, %02x)\n" [Arg.str path2, Arg.int flags2]])
            else
              (Outcome.exit 1, tr)
          else
            let tr :=
              if verbose > 1 then
                tr ++ [Ev.printf "inner open(%s, %02x)\n" [Arg.str path2, Arg.int flags2]]
              else tr
            match lock sys os verbose tr fd2 lock2 locktype2 with
            | (Outcome.exit code, tr) => (Outcome.exit code, tr)
            | (Outcome.ret ok, tr) =>
              if !ok then
                (Outcome.exit 1, tr)
              else
                (Outcome.exit 0, tr)
        else
          let (status, tr) := syscall os tr (Call.waitpid pid 0)
          let (result, tr) := syscall os tr (Call.close fd1)
          if result ≠ 0 then
            (Outcome.exit 1, tr ++ [Ev.perror "close"])
          else if sys.WIFEXITED status then
            (Outcome.ret (sys.WEXITSTATUS status == 0), tr)
          else
            (Outcome.ret false, tr)

/-! ## The matrix sweep of `main` -/

/-- The part of the state of `main` that the sweep loop touches: the trace, the
global `results` (the 9x9 array flattened row by row, so `results[i][j]` is at
offset `9 * i + j`), the pointer `p` as an offset from `&results[0][0]`, and the
history of the offsets stored through `p`. -/
structure MainState where
  trace : List Ev
  results : List Char
  p : Nat
  stores : List Nat
  deriving DecidableEq, Repr

/-- The state in which `main` starts: nothing has happened, and the static array
`results` is zero-initialised. -/
def MainState.init : MainState :=
  { trace := [], results := List.replicate 81 (Char.ofNat 0), p := 0, stores := [] }

/-- The element `results[i][j]`, if it is inside the array. -/
def MainState.cell (st : MainState) (i j : Nat) : Option Char :=
  if i < 9 ∧ j < 9 then st.results[9 * i + j]? else none

/-- A `for` loop over the values `xs`, in order; the loop ends early when its
body terminates the program. -/
def forEach {α : Type} (xs : List α) (body : α → MainState → Outcome Unit × MainState)
    (st : MainState) : Outcome Unit × MainState :=
  match xs with
  | [] => (Outcome.ret (), st)
  | x :: rest =>
    match body x st with
    | (Outcome.ret _, st1) => forEach rest body st1
    | (Outcome.exit code, st1) => (Outcome.exit code, st1)

/-- The result of `snprintf(str, 36, "%s with %s %s", ...)`: at most 35
characters are kept. -/
def describe (mode : Mode) (lk : Lock) (locktype : Int) : String :=
  String.mk ((mode_names mode ++ " with " ++ lock_names lk ++ " "
    ++ locktype_names locktype).toList.take 35)

/-- The body of the innermost loop of `main`: one trial, the optional report
line, and the store `*p++ = ok ? '.' : 'x'`. -/
def sweepBody (sys : Sys) (os : OS) (verbose : Int) (path1 path2 : String)
    (locktypes0 locktypes1 : Int) (lock1 : Lock) (mode1 : Mode) (lock2 : Lock) (mode2 : Mode)
    (st : MainState) : Outcome Unit × MainState :=
  match test sys os verbose st.trace path1 (modes sys mode1) lock1 locktypes0
      path2 (modes sys mode2) lock2 locktypes1 with
  | (Outcome.exit code, tr) => (Outcome.exit code, { st with trace := tr })
  | (Outcome.ret ok, tr) =>
    let tr :=
      if verbose ≠ 0 then
        tr ++ [Ev.printf "%s : %-36s %-36s \n"
          [Arg.str (if ok then " ok " else "fail"),
           Arg.str (describe mode1 lock1 locktypes0),
           Arg.str (describe mode2 lock2 locktypes1)]]
      else tr
    (Outcome.ret (),
      { trace := tr
        results := st.results.set st.p (if ok then '.' else 'x')
        p := st.p + 1
        stores := st.stores ++ [st.p] })

/-- The sweep of `main`: `p = &results[0][0]` followed by the four nested
loops over `lock1`, `mode1`, `lock2`, `mode2`. -/
def sweep (sys : Sys) (os : OS) (verbose : Int) (path1 path2 : String)
    (locktypes0 locktypes1 : Int) (st : MainState) : Outcome Unit × MainState :=
  forEach [Lock.lexclusive, Lock.lshared, Lock.lnone] (fun lock1 =>
    forEach [Mode.mread, Mode.mwrite, Mode.mread_write] (fun mode1 =>
      forEach [Lock.lexclusive, Lock.lshared, Lock.lnone] (fun lock2 =>
        forEach [Mode.mread, Mode.mwrite, Mode.mread_write] (fun mode2 =>
          sweepBody sys os verbose path1 path2 locktypes0 locktypes1
            lock1 mode1 lock2 mode2))))
    { st with p := 0 }

/-! ## Descriptions of the runs of a trial -/

/-- The flags a party opens its file with before `O_NONBLOCK` is added:
`flags |= locks[lock]` when the mechanism is `tsharemode`, `flags` otherwise
(lines 197-202 of the source). -/
def openFlags (sys : Sys) (flags : Nat) (lk : Lock) (locktype : Int) : Nat :=
  if locktype = tsharemode then flags ||| locks sys lk else flags

/-- The `open` request of a party: `open(path, flags | O_NONBLOCK)`. -/
def openCall (sys : Sys) (path : String) (flags : Nat) (lk : Lock) (locktype : Int) : Call :=
  Call.open path (openFlags sys flags lk locktype ||| sys.O_NONBLOCK)

/-- The seven ways a trial can run, each with its outcome and its final trace.
`note` stands for the diagnostic output that may follow an `open`. -/
inductive Trial (sys : Sys) (os : OS) (verbose : Int) (tr : List Ev)
    (path1 : String) (flags1 : Nat) (lock1 : Lock) (locktype1 : Int)
    (path2 : String) (flags2 : Nat) (lock2 : Lock) (locktype2 : Int) :
    Outcome Bool → List Ev → Prop where
  | openA_failed (fd1 : Int) (note : List Ev)
      (hfd1 : fd1 = os (calls tr) (openCall sys path1 flags1 lock1 locktype1))
      (hneg : fd1 < 0) (hnote : calls note = []) :
      Trial sys os verbose tr path1 flags1 lock1 locktype1 path2 flags2 lock2 locktype2
        (Outcome.ret false)
        (tr ++ Ev.call (openCall sys path1 flags1 lock1 locktype1) fd1 :: note)
  | lockA_failed (fd1 : Int) (note trA : List Ev)
      (hfd1 : fd1 = os (calls tr) (openCall sys path1 flags1 lock1 locktype1))
      (hpos : 0 ≤ fd1) (hnote : calls note = [])
      (hlockA : lock sys os verbose
        (tr ++ Ev.call (openCall sys path1 flags1 lock1 locktype1) fd1 :: note)
        fd1 lock1 locktype1 = (Outcome.ret false, trA)) :
      Trial sys os verbose tr path1 flags1 lock1 locktype1 path2 flags2 lock2 locktype2
        (Outcome.ret false) trA
  | fork_failed (fd1 : Int) (note trA : List Ev) (pid : Int)
      (hfd1 : fd1 = os (calls tr) (openCall sys path1 flags1 lock1 locktype1))
      (hpos : 0 ≤ fd1) (hnote : calls note = [])
      (hlockA : lock sys os verbose
        (tr ++ Ev.call (openCall sys path1 flags1 lock1 locktype1) fd1 :: note)
        fd1 lock1 locktype1 = (Outcome.ret true, trA))
      (hpid : pid = os (calls trA) Call.fork) (hfork : pid < 0) :
      Trial sys os verbose tr path1 flags1 lock1 locktype1 path2 flags2 lock2 locktype2
        (Outcome.exit 1) (trA ++ [Ev.call Call.fork pid, Ev.perror "fork"])
  | child_open_failed (fd1 : Int) (note trA : List Ev) (fd2 : Int) (note2 : List Ev)
      (hfd1 : fd1 = os (calls tr) (openCall sys path1 flags1 lock1 locktype1))
      (hpos : 0 ≤ fd1) (hnote : calls note = [])
      (hlockA : lock sys os verbose
        (tr ++ Ev.call (openCall sys path1 flags1 lock1 locktype1) fd1 :: note)
        fd1 lock1 locktype1 = (Outcome.ret true, trA))
      (hpid : os (calls trA) Call.fork = 0)
      (hfd2 : fd2 = os (calls trA ++ [(Call.fork, 0)])
        (openCall sys path2 flags2 lock2 locktype2))
      (hneg2 : fd2 < 0) (hnote2 : calls note2 = []) :
      Trial sys os verbose tr path1 flags1 lock1 locktype1 path2 flags2 lock2 locktype2
        (Outcome.exit 1)
        (trA ++ Ev.call Call.fork 0 ::
          Ev.call (openCall sys path2 flags2 lock2 locktype2) fd2 :: note2)
  | child_locked (fd1 : Int) (note trA : List Ev) (fd2 : Int) (note2 : List Ev)
      (okB : Bool) (trB : List Ev)
      (hfd1 : fd1 = os (calls tr) (openCall sys path1 flags1 lock1 locktype1))
      (hpos : 0 ≤ fd1) (hnote : calls note = [])
      (hlockA : lock sys os verbose
        (tr ++ Ev.call (openCall sys path1 flags1 lock1 locktype1) fd1 :: note)
        fd1 lock1 locktype1 = (Outcome.ret true, trA))
      (hpid : os (calls trA) Call.fork = 0)
      (hfd2 : fd2 = os (calls trA ++ [(Call.fork, 0)])
        (openCall sys path2 flags2 lock2 locktype2))
      (hpos2 : 0 ≤ fd2) (hnote2 : calls note2 = [])
      (hlockB : lock sys os verbose
        (trA ++ Ev.call Call.fork 0 ::
          Ev.call (openCall sys path2 flags2 lock2 locktype2) fd2 :: note2)
        fd2 lock2 locktype2 = (Outcome.ret okB, trB)) :
      Trial sys os verbose tr path1 flags1 lock1 locktype1 path2 flags2 lock2 locktype2
        (Outcome.exit (if okB then 0 else 1)) trB
  | close_failed (fd1 : Int) (note trA : List Ev) (pid status result : Int)
      (hfd1 : fd1 = os (calls tr) (openCall sys path1 flags1 lock1 locktype1))
      (hpos : 0 ≤ fd1) (hnote : calls note = [])
      (hlockA : lock sys os verbose
        (tr ++ Ev.call (openCall sys path1 flags1 lock1 locktype1) fd1 :: note)
        fd1 lock1 locktype1 = (Outcome.ret true, trA))
      (hpid : pid = os (calls trA) Call.fork) (hfork : 0 < pid)
      (hstatus : status = os (calls trA ++ [(Call.fork, pid)]) (Call.waitpid pid 0))
      (hresult : result = os (calls trA ++ [(Call.fork, pid), (Call.waitpid pid 0, status)])
        (Call.close fd1))
      (hclose : result ≠ 0) :
      Trial sys os verbose tr path1 flags1 lock1 locktype1 path2 flags2 lock2 locktype2
        (Outcome.exit 1)
        (trA ++ [Ev.call Call.fork pid, Ev.call (Call.waitpid pid 0) status,
          Ev.call (Call.close fd1) result, Ev.perror "close"])
  | verdict (fd1 : Int) (note trA : List Ev) (pid status : Int)
      (hfd1 : fd1 = os (calls tr) (openCall sys path1 flags1 lock1 locktype1))
      (hpos : 0 ≤ fd1) (hnote : calls note = [])
      (hlockA : lock sys os verbose
        (tr ++ Ev.call (openCall sys path1 flags1 lock1 locktype1) fd1 :: note)
        fd1 lock1 locktype1 = (Outcome.ret true, trA))
      (hpid : pid = os (calls trA) Call.fork) (hfork : 0 < pid)
      (hstatus : status = os (calls trA ++ [(Call.fork, pid)]) (Call.waitpid pid 0))
      (hclose : os (calls trA ++ [(Call.fork, pid), (Call.waitpid pid 0, status)])
        (Call.close fd1) = 0) :
      Trial sys os verbose tr path1 flags1 lock1 locktype1 path2 flags2 lock2 locktype2
        (Outcome.ret (sys.WIFEXITED status && sys.WEXITSTATUS status == 0))
        (trA ++ [Ev.call Call.fork pid, Ev.call (Call.waitpid pid 0) status,
          Ev.call (Call.close fd1) 0])

/-- Diagnostic output: a `printf` or a `perror`. -/
def Ev.isOutput : Ev → Bool
  | Ev.call _ _ => false
  | Ev.printf _ _ => true
  | Ev.perror _ => true

/-- A lock request on descriptor `fd`: `flock(fd, ...)` or `fcntl(fd, ...)`. -/
def Ev.isLockOn (fd : Int) : Ev → Bool
  | Ev.call (Call.flock fd1 _) _ => decide (fd1 = fd)
  | Ev.call (Call.fcntl fd1 _ _) _ => decide (fd1 = fd)
  | _ => false

/-- An `open`, `flock` or `fcntl` request: the operations of a party. -/
def Ev.isPartyCall : Ev → Bool
  | Ev.call (Call.open _ _) _ => true
  | Ev.call (Call.flock _ _) _ => true
  | Ev.call (Call.fcntl _ _ _) _ => true
  | _ => false

/-- A `fork` request. -/
def Ev.isFork : Ev → Bool
  | Ev.call Call.fork _ => true
  | _ => false

/-- The `open` requests of a trace, in order: path and flags of each. -/
def openRequests : List Ev → List (String × Nat)
  | [] => []
  | Ev.call (Call.open path flags) _ :: tr => (path, flags) :: openRequests tr
  | _ :: tr => openRequests tr

/-- The 81 cells of the sweep in the order in which the nested loops of `main`
visit them: `lock1` outermost, then `mode1`, `lock2`, and `mode2` innermost. -/
def sweepCells : List (Lock × Mode × Lock × Mode) :=
  [Lock.lexclusive, Lock.lshared, Lock.lnone].flatMap fun lock1 =>
    [Mode.mread, Mode.mwrite, Mode.mread_write].flatMap fun mode1 =>
      [Lock.lexclusive, Lock.lshared, Lock.lnone].flatMap fun lock2 =>
        [Mode.mread, Mode.mwrite, Mode.mread_write].map fun mode2 =>
          (lock1, mode1, lock2, mode2)

/-! ## Concrete oracles used to evaluate the program -/

/-- An operating system whose answer depends on the kind of request only:
`openR` for every `open`, `flockR` for every `flock`, `fcntlR` for every `fcntl`,
`forkR` for every `fork`, the wait status `statusR` for every `waitpid`, and
`closeR` for every `close`. -/
def osConst (openR flockR fcntlR forkR statusR closeR : Int) : OS := fun _ c =>
  match c with
  | Call.open _ _ => openR
  | Call.flock _ _ => flockR
  | Call.fcntl _ _ _ => fcntlR
  | Call.fork => forkR
  | Call.waitpid _ _ => statusR
  | Call.close _ => closeR

/-- Every `open` yields descriptor 3, every lock request is granted, `fork`
returns the child's pid 100 (the run follows the parent), the child is reported
to have ended with `exit(0)`, and `close` succeeds. -/
def osGrant : OS := osConst 3 0 0 100 0 0

/-- Every record lock is refused (as the kernel refuses a write lock on a
descriptor opened read-only); the run follows the parent, and the child is
reported to have ended with `exit(1)` (wait status 256). -/
def osDenyFcntl : OS := osConst 3 0 (-1) 100 256 0

/-- As `osDenyFcntl`, but `fork` returns 0: the run follows the child. -/
def osDenyFcntlChild : OS := osConst 3 0 (-1) 0 0 0


/-! ## Basic facts about traces -/

@[simp] theorem calls_nil : calls [] = [] := rfl

@[simp] theorem calls_cons_call (c : Call) (r : Int) (tr : List Ev) :
    calls (Ev.call c r :: tr) = (c, r) :: calls tr := rfl

@[simp] theorem calls_cons_printf (fmt : String) (args : List Arg) (tr : List Ev) :
    calls (Ev.printf fmt args :: tr) = calls tr := rfl

@[simp] theorem calls_cons_perror (s : String) (tr : List Ev) :
    calls (Ev.perror s :: tr) = calls tr := rfl

@[simp] theorem calls_append (tr1 tr2 : List Ev) :
    calls (tr1 ++ tr2) = calls tr1 ++ calls tr2 := by
  induction tr1 with
  | nil => rfl
  | cons e tr1 ih => cases e <;> simp [ih]

/-! ## The lock primitive: disposition `lnone` -/

/-- With disposition `lnone`, `lock` returns true at once. -/
theorem lock_none_eq (sys : Sys) (os : OS) (verbose : Int) (tr : List Ev)
    (fd : Int) (locktype : Int) :
    lock sys os verbose tr fd Lock.lnone locktype = (Outcome.ret true, tr) := by
  simp [lock]

/-- C3: for every descriptor, every mechanism value (the three constants or any
other integer) and every verbosity, `lock(fd, lnone, locktype)` returns true
and leaves the trace untouched: no `flock`, no `fcntl`, no output. -/
theorem lock_lnone (sys : Sys) (os : OS) (verbose : Int) (tr : List Ev)
    (fd : Int) (locktype : Int) :
    lock sys os verbose tr fd Lock.lnone locktype = (Outcome.ret true, tr) ∧
    calls (lock sys os verbose tr fd Lock.lnone locktype).2 = calls tr ∧
    output (lock sys os verbose tr fd Lock.lnone locktype).2 = output tr := by
  simp [lock]

/-! ## The lock primitive: general facts -/

/-- The function `lock` always returns to its caller. -/
theorem lock_returns (sys : Sys) (os : OS) (verbose : Int) (tr : List Ev)
    (fd : Int) (lk : Lock) (locktype : Int) :
    ∃ b, (lock sys os verbose tr fd lk locktype).1 = Outcome.ret b := by
  unfold lock syscall
  simp only []
  split_ifs <;> simp

/-- What `lock` returns and which system calls it issues depend on the calls
made so far, not on the verbosity nor on earlier output. -/
theorem lock_calls_indep (sys : Sys) (os : OS) (v1 v2 : Int) (tr1 tr2 : List Ev)
    (fd : Int) (lk : Lock) (locktype : Int) (h : calls tr1 = calls tr2) :
    (lock sys os v1 tr1 fd lk locktype).1 = (lock sys os v2 tr2 fd lk locktype).1 ∧
    calls (lock sys os v1 tr1 fd lk locktype).2 =
      calls (lock sys os v2 tr2 fd lk locktype).2 := by
  unfold lock syscall
  simp only [h]
  split_ifs <;> simp [h]

/-- C9: with the `fcntl` mechanism and a disposition other than `lnone`, `lock`
issues exactly one system call, `fcntl(fd, F_SETLK, ...)` (so not `F_SETLKW`),
on the whole file (`l_whence = SEEK_SET`, `l_start = 0`, `l_len = 0`), with
`l_type = F_WRLCK` for exclusive and `F_RDLCK` for shared; it returns false when
the call's answer is negative and true otherwise, and it always returns. -/
theorem lock_fcntl_request (sys : Sys) (os : OS) (verbose : Int) (tr : List Ev)
    (fd : Int) (lk : Lock) (hlk : lk ≠ Lock.lnone) (hcmd : sys.F_SETLK ≠ sys.F_SETLKW) :
    ∃ cmd l_type r,
      calls (lock sys os verbose tr fd lk tfcntl).2 =
        calls tr ++ [(Call.fcntl fd cmd
          { l_start := 0, l_len := 0, l_whence := sys.SEEK_SET, l_type := l_type }, r)] ∧
      cmd = sys.F_SETLK ∧ cmd ≠ sys.F_SETLKW ∧
      (lk = Lock.lexclusive → l_type = sys.F_WRLCK) ∧
      (lk = Lock.lshared → l_type = sys.F_RDLCK) ∧
      r = os (calls tr) (Call.fcntl fd cmd
          { l_start := 0, l_len := 0, l_whence := sys.SEEK_SET, l_type := l_type }) ∧
      (r < 0 → (lock sys os verbose tr fd lk tfcntl).1 = Outcome.ret false) ∧
      (¬ r < 0 → (lock sys os verbose tr fd lk tfcntl).1 = Outcome.ret true) := by
  refine ⟨sys.F_SETLK, fcntls sys lk, os (calls tr) (Call.fcntl fd sys.F_SETLK
    { l_start := 0, l_len := 0, l_whence := sys.SEEK_SET, l_type := fcntls sys lk }),
    ?_, rfl, hcmd, ?_, ?_, rfl, ?_, ?_⟩
  · unfold lock syscall
    simp only [hlk, if_false]
    simp only [tfcntl, tsharemode, tflock]
    norm_num
    split_ifs <;> simp
  · intro h; subst h; rfl
  · intro h; subst h; rfl
  · intro hr
    unfold lock syscall
    simp only [hlk, if_false]
    simp only [tfcntl, tsharemode, tflock]
    norm_num
    simp only [hr, if_true, if_false]
    split_ifs <;> rfl
  · intro hr
    unfold lock syscall
    simp only [hlk, if_false]
    simp only [tfcntl, tsharemode, tflock]
    norm_num
    simp only [hr, if_true, if_false]
    split_ifs <;> rfl

/-- C9 at a concrete input: an exclusive record lock on descriptor 3, refused
by the system. -/
theorem lock_fcntl_request_witness :
    ∃ cmd l_type r,
      calls (lock darwin osDenyFcntl 0 [] 3 Lock.lexclusive tfcntl).2 =
        calls [] ++ [(Call.fcntl 3 cmd
          { l_start := 0, l_len := 0, l_whence := darwin.SEEK_SET, l_type := l_type }, r)] ∧
      cmd = darwin.F_SETLK ∧ cmd ≠ darwin.F_SETLKW ∧
      (Lock.lexclusive = Lock.lexclusive → l_type = darwin.F_WRLCK) ∧
      (Lock.lexclusive = Lock.lshared → l_type = darwin.F_RDLCK) ∧
      r = osDenyFcntl (calls []) (Call.fcntl 3 cmd
          { l_start := 0, l_len := 0, l_whence := darwin.SEEK_SET, l_type := l_type }) ∧
      (r < 0 → (lock darwin osDenyFcntl 0 [] 3 Lock.lexclusive tfcntl).1 = Outcome.ret false) ∧
      (¬ r < 0 → (lock darwin osDenyFcntl 0 [] 3 Lock.lexclusive tfcntl).1 = Outcome.ret true) :=
  lock_fcntl_request darwin osDenyFcntl 0 [] 3 Lock.lexclusive (by decide) (by decide)

/-! ## The trial: every run follows one of the seven descriptions -/

theorem openCall_fold (sys : Sys) (path : String) (flags : Nat) (lk : Lock) (locktype : Int) :
    Call.open path ((if locktype = tsharemode then flags ||| locks sys lk else flags)
      ||| sys.O_NONBLOCK) = openCall sys path flags lk locktype := rfl

theorem openFlags_fold (sys : Sys) (flags : Nat) (lk : Lock) (locktype : Int) :
    (if locktype = tsharemode then flags ||| locks sys lk else flags) =
      openFlags sys flags lk locktype := rfl

theorem openCall_fold2 (sys : Sys) (path : String) (flags : Nat) (lk : Lock) (locktype : Int) :
    Call.open path (openFlags sys flags lk locktype ||| sys.O_NONBLOCK) =
      openCall sys path flags lk locktype := rfl

/-- Every run of `test` is one of the runs described by `Trial`. -/
theorem test_trial (sys : Sys) (os : OS) (verbose : Int) (tr : List Ev)
    (path1 : String) (flags1 : Nat) (lock1 : Lock) (locktype1 : Int)
    (path2 : String) (flags2 : Nat) (lock2 : Lock) (locktype2 : Int) :
    Trial sys os verbose tr path1 flags1 lock1 locktype1 path2 flags2 lock2 locktype2
      (test sys os verbose tr path1 flags1 lock1 locktype1 path2 flags2 lock2 locktype2).1
      (test sys os verbose tr path1 flags1 lock1 locktype1 path2 flags2 lock2 locktype2).2 := by
  unfold test syscall
  simp only [openCall_fold, openFlags_fold, openCall_fold2, List.append_assoc, List.singleton_append, List.cons_append,
    List.nil_append, calls_append, calls_cons_call, calls_nil]
  generalize hfd1 : os (calls tr) (openCall sys path1 flags1 lock1 locktype1) = fd1
  by_cases hneg : fd1 < 0
  · simp only [hneg, if_true]
    split_ifs
    · exact Trial.openA_failed _ _ hfd1.symm hneg (by simp)
    · exact Trial.openA_failed _ _ hfd1.symm hneg (by simp)
  · simp only [hneg, if_false]
    obtain ⟨note, hnote, hO⟩ : ∃ note, calls note = [] ∧
        (if verbose > 1 then
          tr ++ [Ev.call (openCall sys path1 flags1 lock1 locktype1) fd1,
            Ev.printf "outer open(%s, %02x)\n" [Arg.str path1,
              Arg.int ↑(openFlags sys flags1 lock1 locktype1)]]
        else tr ++ [Ev.call (openCall sys path1 flags1 lock1 locktype1) fd1]) =
        tr ++ Ev.call (openCall sys path1 flags1 lock1 locktype1) fd1 :: note := by
      split_ifs
      · exact ⟨_, by simp, rfl⟩
      · exact ⟨[], by simp, rfl⟩
    rw [hO]
    obtain ⟨okA, hokA⟩ := lock_returns sys os verbose
      (tr ++ Ev.call (openCall sys path1 flags1 lock1 locktype1) fd1 :: note) fd1 lock1 locktype1
    rcases hA : lock sys os verbose
      (tr ++ Ev.call (openCall sys path1 flags1 lock1 locktype1) fd1 :: note) fd1 lock1 locktype1
      with ⟨oA, trA⟩
    rw [hA] at hokA
    simp only at hokA
    subst hokA
    simp only []
    have hpos : 0 ≤ fd1 := not_lt.mp hneg
    cases okA with
    | false =>
      simp only [Bool.not_false, if_true]
      exact Trial.lockA_failed fd1 note trA hfd1.symm hpos hnote hA
    | true =>
      simp only [Bool.not_true, Bool.false_eq_true, if_false]
      generalize hpid : os (calls trA) Call.fork = pid
      by_cases hfork : pid < 0
      · simp only [hfork, if_true]
        exact Trial.fork_failed fd1 note trA pid hfd1.symm hpos hnote hA hpid.symm hfork
      · simp only [hfork, if_false]
        by_cases hzero : pid = 0
        · subst hzero
          simp only [if_true]
          generalize hfd2 : os (calls trA ++ [(Call.fork, 0)])
            (openCall sys path2 flags2 lock2 locktype2) = fd2
          by_cases hneg2 : fd2 < 0
          · simp only [hneg2, if_true]
            split_ifs
            · exact Trial.child_open_failed fd1 note trA fd2 _ hfd1.symm hpos hnote hA hpid
                hfd2.symm hneg2 (by simp)
            · exact Trial.child_open_failed fd1 note trA fd2 _ hfd1.symm hpos hnote hA hpid
                hfd2.symm hneg2 (by simp)
          · simp only [hneg2, if_false]
            obtain ⟨note2, hnote2, hO2⟩ : ∃ note2, calls note2 = [] ∧
                (if verbose > 1 then
                  trA ++ [Ev.call Call.fork 0,
                    Ev.call (openCall sys path2 flags2 lock2 locktype2) fd2,
                    Ev.printf "inner open(%s, %02x)\n" [Arg.str path2,
                      Arg.int ↑(openFlags sys flags2 lock2 locktype2)]]
                else trA ++ [Ev.call Call.fork 0,
                    Ev.call (openCall sys path2 flags2 lock2 locktype2) fd2]) =
                trA ++ Ev.call Call.fork 0 ::
                  Ev.call (openCall sys path2 flags2 lock2 locktype2) fd2 :: note2 := by
              split_ifs
              · exact ⟨_, by simp, rfl⟩
              · exact ⟨[], by simp, rfl⟩
            rw [hO2]
            obtain ⟨okB, hokB⟩ := lock_returns sys os verbose
              (trA ++ Ev.call Call.fork 0 ::
                Ev.call (openCall sys path2 flags2 lock2 locktype2) fd2 :: note2)
              fd2 lock2 locktype2
            rcases hB : lock sys os verbose
              (trA ++ Ev.call Call.fork 0 ::
                Ev.call (openCall sys path2 flags2 lock2 locktype2) fd2 :: note2)
              fd2 lock2 locktype2 with ⟨oB, trB⟩
            rw [hB] at hokB
            simp only at hokB
            subst hokB
            simp only []
            have hpos2 : 0 ≤ fd2 := not_lt.mp hneg2
            have hrun := @Trial.child_locked sys os verbose tr path1 flags1 lock1 locktype1
              path2 flags2 lock2 locktype2
              fd1 note trA fd2 note2 okB trB hfd1.symm hpos hnote hA hpid
              hfd2.symm hpos2 hnote2 hB
            cases okB with
            | false => simpa using hrun
            | true => simpa using hrun
        · simp only [hzero, if_false]
          have hparent : 0 < pid := lt_of_le_of_ne (not_lt.mp hfork) (Ne.symm hzero)
          generalize hstatus : os (calls trA ++ [(Call.fork, pid)]) (Call.waitpid pid 0) = status
          generalize hresult : os (calls trA ++ [(Call.fork, pid), (Call.waitpid pid 0, status)])
            (Call.close fd1) = result
          by_cases hclose : result = 0
          · subst hclose
            simp only [ne_eq, not_true_eq_false, if_false]
            have hrun := @Trial.verdict sys os verbose tr path1 flags1 lock1 locktype1
              path2 flags2 lock2 locktype2
              fd1 note trA pid status hfd1.symm hpos hnote hA hpid.symm hparent
              hstatus.symm hresult
            cases hw : sys.WIFEXITED status with
            | false => simpa [hw] using hrun
            | true => simpa [hw] using hrun
          · simp only [ne_eq, hclose, not_false_eq_true, if_true]
            exact Trial.close_failed fd1 note trA pid status result hfd1.symm hpos hnote hA
              hpid.symm hparent hstatus.symm hresult.symm hclose

/-- Corollary of `test_trial` for a run given by an equation. -/
theorem trial_of_eq {sys : Sys} {os : OS} {verbose : Int} {tr : List Ev}
    {path1 : String} {flags1 : Nat} {lock1 : Lock} {locktype1 : Int}
    {path2 : String} {flags2 : Nat} {lock2 : Lock} {locktype2 : Int}
    {out : Outcome Bool} {tr1 : List Ev}
    (h : test sys os verbose tr path1 flags1 lock1 locktype1 path2 flags2 lock2 locktype2
      = (out, tr1)) :
    Trial sys os verbose tr path1 flags1 lock1 locktype1 path2 flags2 lock2 locktype2
      out tr1 := by
  have := test_trial sys os verbose tr path1 flags1 lock1 locktype1 path2 flags2 lock2 locktype2
  rw [h] at this
  exact this

/-- Everything `lock` appends to the trace is a lock request on its descriptor
or diagnostic output. -/
theorem lock_ext (sys : Sys) (os : OS) (verbose : Int) (tr : List Ev)
    (fd : Int) (lk : Lock) (locktype : Int) :
    ∃ ext, (lock sys os verbose tr fd lk locktype).2 = tr ++ ext ∧
      ∀ e ∈ ext, e.isLockOn fd = true ∨ e.isOutput = true := by
  unfold lock syscall
  simp only []
  split_ifs <;> simp [Ev.isLockOn, Ev.isOutput]

/-- The trace handed to `lock` after an `open`, with or without the report of
the `open`, is the trace up to the `open` followed by diagnostic output. -/
theorem report_note (c : Prop) [Decidable c] (pre : List Ev) (e p : Ev)
    (hp : p.isOutput = true) :
    ∃ note, calls note = [] ∧ (if c then pre ++ [e, p] else pre ++ [e]) = pre ++ e :: note := by
  by_cases hc : c
  · refine ⟨[p], ?_, by simp [hc]⟩
    cases p <;> simp_all [Ev.isOutput]
  · exact ⟨[], rfl, by simp [hc]⟩

/-- Two runs of `test` from traces with the same system calls, at any two
verbosity levels, have the same outcome and issue the same system calls. -/
theorem test_calls_indep (sys : Sys) (os : OS) (v1 v2 : Int) (tr1 tr2 : List Ev)
    (path1 : String) (flags1 : Nat) (lock1 : Lock) (locktype1 : Int)
    (path2 : String) (flags2 : Nat) (lock2 : Lock) (locktype2 : Int)
    (hcalls : calls tr1 = calls tr2) :
    (test sys os v1 tr1 path1 flags1 lock1 locktype1 path2 flags2 lock2 locktype2).1 =
      (test sys os v2 tr2 path1 flags1 lock1 locktype1 path2 flags2 lock2 locktype2).1 ∧
    calls (test sys os v1 tr1 path1 flags1 lock1 locktype1 path2 flags2 lock2 locktype2).2 =
      calls (test sys os v2 tr2 path1 flags1 lock1 locktype1 path2 flags2 lock2 locktype2).2 := by
  unfold test syscall
  simp only [openCall_fold, openFlags_fold, openCall_fold2, List.append_assoc,
    List.singleton_append, List.cons_append, List.nil_append, calls_append, calls_cons_call,
    calls_nil, hcalls]
  generalize os (calls tr2) (openCall sys path1 flags1 lock1 locktype1) = fd1
  by_cases hneg : fd1 < 0
  · simp only [hneg, if_true]
    split_ifs <;> simp [hcalls]
  · simp only [hneg, if_false]
    obtain ⟨n1, hn1, hO1⟩ := report_note (v1 > 1) tr1
      (Ev.call (openCall sys path1 flags1 lock1 locktype1) fd1)
      (Ev.printf "outer open(%s, %02x)\n" [Arg.str path1,
        Arg.int ↑(openFlags sys flags1 lock1 locktype1)]) rfl
    obtain ⟨n2, hn2, hO2⟩ := report_note (v2 > 1) tr2
      (Ev.call (openCall sys path1 flags1 lock1 locktype1) fd1)
      (Ev.printf "outer open(%s, %02x)\n" [Arg.str path1,
        Arg.int ↑(openFlags sys flags1 lock1 locktype1)]) rfl
    rw [hO1, hO2]
    have hAB := lock_calls_indep sys os v1 v2
      (tr1 ++ Ev.call (openCall sys path1 flags1 lock1 locktype1) fd1 :: n1)
      (tr2 ++ Ev.call (openCall sys path1 flags1 lock1 locktype1) fd1 :: n2)
      fd1 lock1 locktype1 (by simp [hcalls, hn1, hn2])
    obtain ⟨okA, hokA⟩ := lock_returns sys os v1
      (tr1 ++ Ev.call (openCall sys path1 flags1 lock1 locktype1) fd1 :: n1) fd1 lock1 locktype1
    rcases hL1 : lock sys os v1
      (tr1 ++ Ev.call (openCall sys path1 flags1 lock1 locktype1) fd1 :: n1) fd1 lock1 locktype1
      with ⟨o1, trA1⟩
    rcases hL2 : lock sys os v2
      (tr2 ++ Ev.call (openCall sys path1 flags1 lock1 locktype1) fd1 :: n2) fd1 lock1 locktype1
      with ⟨o2, trA2⟩
    rw [hL1, hL2] at hAB
    rw [hL1] at hokA
    simp only at hAB hokA
    obtain ⟨ho, hcA⟩ := hAB
    subst hokA
    subst ho
    simp only []
    cases okA with
    | false => simp [hcA]
    | true =>
      simp only [Bool.not_true, Bool.false_eq_true, if_false, hcA]
      generalize os (calls trA2) Call.fork = pid
      by_cases hfork : pid < 0
      · simp [hfork, hcA]
      · simp only [hfork, if_false]
        by_cases hzero : pid = 0
        · subst hzero
          simp only [if_true]
          generalize os (calls trA2 ++ [(Call.fork, 0)])
            (openCall sys path2 flags2 lock2 locktype2) = fd2
          by_cases hneg2 : fd2 < 0
          · simp only [hneg2, if_true]
            split_ifs <;> simp [hcA]
          · simp only [hneg2, if_false]
            obtain ⟨m1, hm1, hP1⟩ := report_note (v1 > 1) (trA1 ++ [Ev.call Call.fork 0])
              (Ev.call (openCall sys path2 flags2 lock2 locktype2) fd2)
              (Ev.printf "inner open(%s, %02x)\n" [Arg.str path2,
                Arg.int ↑(openFlags sys flags2 lock2 locktype2)]) rfl
            obtain ⟨m2, hm2, hP2⟩ := report_note (v2 > 1) (trA2 ++ [Ev.call Call.fork 0])
              (Ev.call (openCall sys path2 flags2 lock2 locktype2) fd2)
              (Ev.printf "inner open(%s, %02x)\n" [Arg.str path2,
                Arg.int ↑(openFlags sys flags2 lock2 locktype2)]) rfl
            simp only [List.append_assoc, List.singleton_append, List.cons_append,
              List.nil_append] at hP1 hP2
            rw [hP1, hP2]
            have hBB := lock_calls_indep sys os v1 v2
              (trA1 ++ Ev.call Call.fork 0 ::
                Ev.call (openCall sys path2 flags2 lock2 locktype2) fd2 :: m1)
              (trA2 ++ Ev.call Call.fork 0 ::
                Ev.call (openCall sys path2 flags2 lock2 locktype2) fd2 :: m2)
              fd2 lock2 locktype2 (by simp [hcA, hm1, hm2])
            obtain ⟨okB, hokB⟩ := lock_returns sys os v1
              (trA1 ++ Ev.call Call.fork 0 ::
                Ev.call (openCall sys path2 flags2 lock2 locktype2) fd2 :: m1)
              fd2 lock2 locktype2
            rcases hM1 : lock sys os v1
              (trA1 ++ Ev.call Call.fork 0 ::
                Ev.call (openCall sys path2 flags2 lock2 locktype2) fd2 :: m1)
              fd2 lock2 locktype2 with ⟨p1, trB1⟩
            rcases hM2 : lock sys os v2
              (trA2 ++ Ev.call Call.fork 0 ::
                Ev.call (openCall sys path2 flags2 lock2 locktype2) fd2 :: m2)
              fd2 lock2 locktype2 with ⟨p2, trB2⟩
            rw [hM1, hM2] at hBB
            rw [hM1] at hokB
            simp only at hBB hokB
            obtain ⟨hp, hcB⟩ := hBB
            subst hokB
            subst hp
            simp only []
            cases okB <;> simp [hcB]
        · simp only [hzero, if_false]
          split_ifs <;> simp [hcA]

/-- The outcome of `lock` and the calls it issues carry over to any trace with
the same system calls, at any verbosity. -/
theorem lock_transfer {sys : Sys} {os : OS} {v1 : Int} {t1 : List Ev}
    {fd : Int} {lk : Lock} {locktype : Int} {ok : Bool} {trA : List Ev}
    (v2 : Int) (t2 : List Ev)
    (h : lock sys os v1 t1 fd lk locktype = (Outcome.ret ok, trA))
    (hc : calls t1 = calls t2) :
    ∃ trA2, lock sys os v2 t2 fd lk locktype = (Outcome.ret ok, trA2) ∧
      calls trA2 = calls trA := by
  have := lock_calls_indep sys os v1 v2 t1 t2 fd lk locktype hc
  rw [h] at this
  refine ⟨(lock sys os v2 t2 fd lk locktype).2, ?_, this.2.symm⟩
  exact Prod.ext this.1.symm rfl

/-- Every run described by `Trial` is, up to diagnostic output, the run of
`test`. -/
theorem trial_sound {sys : Sys} {os : OS} {verbose : Int} {tr : List Ev}
    {path1 : String} {flags1 : Nat} {lock1 : Lock} {locktype1 : Int}
    {path2 : String} {flags2 : Nat} {lock2 : Lock} {locktype2 : Int}
    {out : Outcome Bool} {tr1 : List Ev}
    (h : Trial sys os verbose tr path1 flags1 lock1 locktype1 path2 flags2 lock2 locktype2
      out tr1) :
    (test sys os verbose tr path1 flags1 lock1 locktype1 path2 flags2 lock2 locktype2).1 = out ∧
    calls (test sys os verbose tr path1 flags1 lock1 locktype1 path2 flags2 lock2 locktype2).2
      = calls tr1 := by
  unfold test syscall
  simp only [openCall_fold, openFlags_fold, openCall_fold2, List.append_assoc,
    List.singleton_append, List.cons_append, List.nil_append, calls_append, calls_cons_call,
    calls_nil]
  obtain ⟨n, hn, hO⟩ := report_note (verbose > 1) tr
    (Ev.call (openCall sys path1 flags1 lock1 locktype1)
      (os (calls tr) (openCall sys path1 flags1 lock1 locktype1)))
    (Ev.printf "outer open(%s, %02x)\n" [Arg.str path1,
      Arg.int ↑(openFlags sys flags1 lock1 locktype1)]) rfl
  rw [hO]
  cases h with
  | openA_failed fd1 note hfd1 hneg hnote =>
    rw [← hfd1]
    simp only [hneg, if_true]
    split_ifs <;> simp [hnote]
  | lockA_failed fd1 note trA hfd1 hpos hnote hlockA =>
    rw [← hfd1]
    simp only [not_lt.mpr hpos, if_false]
    obtain ⟨trA2, hL, hcA⟩ := lock_transfer verbose
      (tr ++ Ev.call (openCall sys path1 flags1 lock1 locktype1) fd1 :: n) hlockA
      (by simp [hnote, hn])
    rw [hL]
    simp [hcA]
  | fork_failed fd1 note trA pid hfd1 hpos hnote hlockA hpid hfork =>
    rw [← hfd1]
    simp only [not_lt.mpr hpos, if_false]
    obtain ⟨trA2, hL, hcA⟩ := lock_transfer verbose
      (tr ++ Ev.call (openCall sys path1 flags1 lock1 locktype1) fd1 :: n) hlockA
      (by simp [hnote, hn])
    rw [hL]
    simp only [Bool.not_true, Bool.false_eq_true, if_false, hcA, ← hpid, hfork, if_true]
    simp [hcA]
  | child_open_failed fd1 note trA fd2 note2 hfd1 hpos hnote hlockA hpid hfd2 hneg2 hnote2 =>
    rw [← hfd1]
    simp only [not_lt.mpr hpos, if_false]
    obtain ⟨trA2, hL, hcA⟩ := lock_transfer verbose
      (tr ++ Ev.call (openCall sys path1 flags1 lock1 locktype1) fd1 :: n) hlockA
      (by simp [hnote, hn])
    rw [hL]
    simp only [Bool.not_true, Bool.false_eq_true, if_false, hcA, hpid, lt_irrefl, if_true,
      ← hfd2, hneg2]
    split_ifs <;> simp [hcA, hnote2]
  | child_locked fd1 note trA fd2 note2 okB trB hfd1 hpos hnote hlockA hpid hfd2 hpos2 hnote2
      hlockB =>
    rw [← hfd1]
    simp only [not_lt.mpr hpos, if_false]
    obtain ⟨trA2, hL, hcA⟩ := lock_transfer verbose
      (tr ++ Ev.call (openCall sys path1 flags1 lock1 locktype1) fd1 :: n) hlockA
      (by simp [hnote, hn])
    rw [hL]
    simp only [Bool.not_true, Bool.false_eq_true, if_false, hcA, hpid, lt_irrefl, if_true,
      ← hfd2, not_lt.mpr hpos2]
    obtain ⟨m, hm, hP⟩ := report_note (verbose > 1) (trA2 ++ [Ev.call Call.fork 0])
      (Ev.call (openCall sys path2 flags2 lock2 locktype2) fd2)
      (Ev.printf "inner open(%s, %02x)\n" [Arg.str path2,
        Arg.int ↑(openFlags sys flags2 lock2 locktype2)]) rfl
    simp only [List.append_assoc, List.singleton_append, List.cons_append,
      List.nil_append] at hP
    rw [hP]
    obtain ⟨trB2, hM, hcB⟩ := lock_transfer verbose
      (trA2 ++ Ev.call Call.fork 0 ::
        Ev.call (openCall sys path2 flags2 lock2 locktype2) fd2 :: m) hlockB
      (by simp [hnote2, hm, hcA])
    rw [hM]
    cases okB <;> simp [hcB]
  | close_failed fd1 note trA pid status result hfd1 hpos hnote hlockA hpid hfork hstatus
      hresult hclose =>
    rw [← hfd1]
    simp only [not_lt.mpr hpos, if_false]
    obtain ⟨trA2, hL, hcA⟩ := lock_transfer verbose
      (tr ++ Ev.call (openCall sys path1 flags1 lock1 locktype1) fd1 :: n) hlockA
      (by simp [hnote, hn])
    rw [hL]
    simp only [Bool.not_true, Bool.false_eq_true, if_false, hcA, ← hpid, not_lt.mpr hfork.le,
      hfork.ne', ← hstatus, ← hresult, ne_eq, hclose, not_false_eq_true, if_true]
    simp [hcA]
  | verdict fd1 note trA pid status hfd1 hpos hnote hlockA hpid hfork hstatus hclose =>
    rw [← hfd1]
    simp only [not_lt.mpr hpos, if_false]
    obtain ⟨trA2, hL, hcA⟩ := lock_transfer verbose
      (tr ++ Ev.call (openCall sys path1 flags1 lock1 locktype1) fd1 :: n) hlockA
      (by simp [hnote, hn])
    rw [hL]
    simp only [Bool.not_true, Bool.false_eq_true, if_false, hcA, ← hpid, not_lt.mpr hfork.le,
      hfork.ne', ← hstatus, hclose, ne_eq, not_true_eq_false]
    cases hw : sys.WIFEXITED status <;> simp [hcA]

/-- A trace without system calls consists of diagnostic output. -/
theorem output_of_calls_nil (note : List Ev) (h : calls note = []) :
    ∀ e ∈ note, e.isOutput = true := by
  induction note with
  | nil => simp
  | cons e rest ih =>
    intro x hx
    cases e with
    | call c r => simp at h
    | printf f a =>
      rcases List.mem_cons.mp hx with rfl | hx
      · rfl
      · exact ih (by simpa using h) x hx
    | perror m =>
      rcases List.mem_cons.mp hx with rfl | hx
      · rfl
      · exact ih (by simpa using h) x hx

/-- The shape of the final trace of every run: party A's `open`, the report of
the `open`, the events of party A's `lock`, and then, only if both succeeded,
the `fork` followed by the events of the child or of the parent. -/
theorem trial_shape {sys : Sys} {os : OS} {verbose : Int} {tr : List Ev}
    {path1 : String} {flags1 : Nat} {lock1 : Lock} {locktype1 : Int}
    {path2 : String} {flags2 : Nat} {lock2 : Lock} {locktype2 : Int}
    {out : Outcome Bool} {tr1 : List Ev}
    (h : Trial sys os verbose tr path1 flags1 lock1 locktype1 path2 flags2 lock2 locktype2
      out tr1) :
    ∃ fd1 noteA extA,
      fd1 = os (calls tr) (openCall sys path1 flags1 lock1 locktype1) ∧
      calls noteA = [] ∧ (∀ e ∈ extA, e.isLockOn fd1 = true ∨ e.isOutput = true) ∧
      ((fd1 < 0 ∧ extA = [] ∧ out = Outcome.ret false ∧
          tr1 = tr ++ Ev.call (openCall sys path1 flags1 lock1 locktype1) fd1 :: noteA) ∨
       (0 ≤ fd1 ∧ ∃ okA,
          lock sys os verbose
            (tr ++ Ev.call (openCall sys path1 flags1 lock1 locktype1) fd1 :: noteA)
            fd1 lock1 locktype1 =
            (Outcome.ret okA,
              tr ++ Ev.call (openCall sys path1 flags1 lock1 locktype1) fd1 ::
                (noteA ++ extA)) ∧
          ((okA = false ∧ out = Outcome.ret false ∧
              tr1 = tr ++ Ev.call (openCall sys path1 flags1 lock1 locktype1) fd1 ::
                (noteA ++ extA)) ∨
           (okA = true ∧ ∃ pid post,
              pid = os (calls (tr ++ Ev.call (openCall sys path1 flags1 lock1 locktype1) fd1 ::
                (noteA ++ extA))) Call.fork ∧
              tr1 = tr ++ Ev.call (openCall sys path1 flags1 lock1 locktype1) fd1 ::
                (noteA ++ extA ++ Ev.call Call.fork pid :: post) ∧
              ((pid < 0 ∧ post = [Ev.perror "fork"] ∧ out = Outcome.exit 1) ∨
               (pid = 0 ∧ ∃ fd2 rest,
                  post = Ev.call (openCall sys path2 flags2 lock2 locktype2) fd2 :: rest ∧
                  (∀ e ∈ rest, e.isLockOn fd2 = true ∨ e.isOutput = true) ∧
                  (out = Outcome.exit 0 ∨ out = Outcome.exit 1)) ∨
               (0 < pid ∧ ∃ status result,
                  (result = 0 ∧
                    post = [Ev.call (Call.waitpid pid 0) status,
                      Ev.call (Call.close fd1) result] ∧
                    out = Outcome.ret (sys.WIFEXITED status && sys.WEXITSTATUS status == 0)) ∨
                  (result ≠ 0 ∧
                    post = [Ev.call (Call.waitpid pid 0) status,
                      Ev.call (Call.close fd1) result, Ev.perror "close"] ∧
                    out = Outcome.exit 1))))))) := by
  have hlk : ∀ {t : List Ev} {fd : Int} {lk : Lock} {lt : Int} {ok : Bool} {t2 : List Ev},
      lock sys os verbose t fd lk lt = (Outcome.ret ok, t2) →
      ∃ ext, t2 = t ++ ext ∧ ∀ e ∈ ext, e.isLockOn fd = true ∨ e.isOutput = true := by
    intro t fd lk lt ok t2 hl
    obtain ⟨ext, he, hp⟩ := lock_ext sys os verbose t fd lk lt
    rw [hl] at he
    exact ⟨ext, he, hp⟩
  cases h with
  | openA_failed fd1 note hfd1 hneg hnote =>
    exact ⟨fd1, note, [], hfd1, hnote, by simp, Or.inl ⟨hneg, rfl, rfl, rfl⟩⟩
  | lockA_failed fd1 note trA hfd1 hpos hnote hlockA =>
    obtain ⟨ext, rfl, hext⟩ := hlk hlockA
    refine ⟨fd1, note, ext, hfd1, hnote, hext, Or.inr ⟨hpos, false, ?_, Or.inl ⟨rfl, rfl, ?_⟩⟩⟩
    · simpa using hlockA
    · simp
  | fork_failed fd1 note trA pid hfd1 hpos hnote hlockA hpid hfork =>
    obtain ⟨ext, rfl, hext⟩ := hlk hlockA
    refine ⟨fd1, note, ext, hfd1, hnote, hext, Or.inr ⟨hpos, true, ?_, Or.inr ⟨rfl, pid, _, ?_,
      ?_, Or.inl ⟨hfork, rfl, rfl⟩⟩⟩⟩
    · simpa using hlockA
    · simpa using hpid
    · simp
  | child_open_failed fd1 note trA fd2 note2 hfd1 hpos hnote hlockA hpid hfd2 hneg2 hnote2 =>
    obtain ⟨ext, rfl, hext⟩ := hlk hlockA
    refine ⟨fd1, note, ext, hfd1, hnote, hext, Or.inr ⟨hpos, true, ?_, Or.inr ⟨rfl, 0, _, ?_,
      ?_, Or.inr (Or.inl ⟨rfl, fd2, note2, rfl, ?_, Or.inr rfl⟩)⟩⟩⟩
    · simpa using hlockA
    · simpa using hpid.symm
    · simp
    · intro e he
      exact Or.inr (output_of_calls_nil note2 hnote2 e he)
  | child_locked fd1 note trA fd2 note2 okB trB hfd1 hpos hnote hlockA hpid hfd2 hpos2 hnote2
      hlockB =>
    obtain ⟨ext, rfl, hext⟩ := hlk hlockA
    obtain ⟨ext2, rfl, hext2⟩ := hlk hlockB
    refine ⟨fd1, note, ext, hfd1, hnote, hext, Or.inr ⟨hpos, true, ?_, Or.inr ⟨rfl, 0, _, ?_,
      ?_, Or.inr (Or.inl ⟨rfl, fd2, note2 ++ ext2, rfl, ?_, ?_⟩)⟩⟩⟩
    · simpa using hlockA
    · simpa using hpid.symm
    · simp
    · intro e he
      rcases List.mem_append.mp he with he | he
      · exact Or.inr (output_of_calls_nil note2 hnote2 e he)
      · exact hext2 e he
    · cases okB <;> simp
  | close_failed fd1 note trA pid status result hfd1 hpos hnote hlockA hpid hfork hstatus
      hresult hclose =>
    obtain ⟨ext, rfl, hext⟩ := hlk hlockA
    refine ⟨fd1, note, ext, hfd1, hnote, hext, Or.inr ⟨hpos, true, ?_, Or.inr ⟨rfl, pid, _, ?_,
      ?_, Or.inr (Or.inr ⟨hfork, status, result, Or.inr ⟨hclose, rfl, rfl⟩⟩)⟩⟩⟩
    · simpa using hlockA
    · simpa using hpid
    · simp
  | verdict fd1 note trA pid status hfd1 hpos hnote hlockA hpid hfork hstatus hclose =>
    obtain ⟨ext, rfl, hext⟩ := hlk hlockA
    refine ⟨fd1, note, ext, hfd1, hnote, hext, Or.inr ⟨hpos, true, ?_, Or.inr ⟨rfl, pid, _, ?_,
      ?_, Or.inr (Or.inr ⟨hfork, status, 0, Or.inl ⟨rfl, rfl, rfl⟩⟩)⟩⟩⟩
    · simpa using hlockA
    · simpa using hpid
    · simp

@[simp] theorem openRequests_append (tr1 tr2 : List Ev) :
    openRequests (tr1 ++ tr2) = openRequests tr1 ++ openRequests tr2 := by
  induction tr1 with
  | nil => rfl
  | cons e tr1 ih =>
    cases e with
    | call c r => cases c <;> simp [openRequests, ih]
    | printf f a => simp [openRequests, ih]
    | perror m => simp [openRequests, ih]

/-- Lock requests and diagnostic output contain no `open` request. -/
theorem openRequests_of_lock_events (fd : Int) (ext : List Ev)
    (h : ∀ e ∈ ext, e.isLockOn fd = true ∨ e.isOutput = true) : openRequests ext = [] := by
  induction ext with
  | nil => rfl
  | cons e rest ih =>
    have he := h e (List.mem_cons_self _ _)
    have hr := ih (fun x hx => h x (List.mem_cons_of_mem _ hx))
    cases e with
    | call c r => cases c <;> simp_all [openRequests, Ev.isLockOn, Ev.isOutput]
    | printf f a => simp [openRequests, hr]
    | perror m => simp [openRequests, hr]

/-- Lock requests and diagnostic output are no `fork`. -/
theorem not_fork_of_lock_event (fd : Int) (e : Ev)
    (h : e.isLockOn fd = true ∨ e.isOutput = true) : e.isFork = false := by
  cases e with
  | call c r => cases c <;> simp_all [Ev.isLockOn, Ev.isOutput, Ev.isFork]
  | printf f a => rfl
  | perror m => rfl

/-- Lock requests and diagnostic output are an `open`, `flock`, `fcntl` or
output. -/
theorem party_of_lock_event (fd : Int) (e : Ev)
    (h : e.isLockOn fd = true ∨ e.isOutput = true) :
    e.isPartyCall = true ∨ e.isOutput = true := by
  cases e with
  | call c r => cases c <;> simp_all [Ev.isLockOn, Ev.isOutput, Ev.isPartyCall]
  | printf f a => exact Or.inr rfl
  | perror m => exact Or.inr rfl

/-! ## The verdict of a trial -/

/-- The verdict of a run in terms of the answers of the oracle: when the parent
returns true, when a run ends in `exit(0)`, and that the child ends in
`exit(0)` or `exit(1)`. -/
theorem test_verdict_aux (sys : Sys) (os : OS) (verbose : Int) (tr : List Ev)
    (path1 : String) (flags1 : Nat) (lock1 : Lock) (locktype1 : Int)
    (path2 : String) (flags2 : Nat) (lock2 : Lock) (locktype2 : Int) :
    (∀ b, (test sys os verbose tr path1 flags1 lock1 locktype1
          path2 flags2 lock2 locktype2).1 = Outcome.ret b →
      (b = true ↔ ∃ fd1 note trA pid status,
        fd1 = os (calls tr) (openCall sys path1 flags1 lock1 locktype1) ∧ 0 ≤ fd1 ∧
        calls note = [] ∧
        lock sys os verbose
          (tr ++ Ev.call (openCall sys path1 flags1 lock1 locktype1) fd1 :: note)
          fd1 lock1 locktype1 = (Outcome.ret true, trA) ∧
        pid = os (calls trA) Call.fork ∧
        status = os (calls trA ++ [(Call.fork, pid)]) (Call.waitpid pid 0) ∧
        sys.WIFEXITED status = true ∧ sys.WEXITSTATUS status = 0)) ∧
    ((test sys os verbose tr path1 flags1 lock1 locktype1
          path2 flags2 lock2 locktype2).1 = Outcome.exit 0 ↔
      ∃ fd1 note trA fd2 note2 trB,
        fd1 = os (calls tr) (openCall sys path1 flags1 lock1 locktype1) ∧ 0 ≤ fd1 ∧
        calls note = [] ∧
        lock sys os verbose
          (tr ++ Ev.call (openCall sys path1 flags1 lock1 locktype1) fd1 :: note)
          fd1 lock1 locktype1 = (Outcome.ret true, trA) ∧
        os (calls trA) Call.fork = 0 ∧
        fd2 = os (calls trA ++ [(Call.fork, 0)]) (openCall sys path2 flags2 lock2 locktype2) ∧
        0 ≤ fd2 ∧ calls note2 = [] ∧
        lock sys os verbose
          (trA ++ Ev.call Call.fork 0 ::
            Ev.call (openCall sys path2 flags2 lock2 locktype2) fd2 :: note2)
          fd2 lock2 locktype2 = (Outcome.ret true, trB)) ∧
    (∀ fd1 note trA,
        fd1 = os (calls tr) (openCall sys path1 flags1 lock1 locktype1) → 0 ≤ fd1 →
        calls note = [] →
        lock sys os verbose
          (tr ++ Ev.call (openCall sys path1 flags1 lock1 locktype1) fd1 :: note)
          fd1 lock1 locktype1 = (Outcome.ret true, trA) →
        os (calls trA) Call.fork = 0 →
        (test sys os verbose tr path1 flags1 lock1 locktype1
          path2 flags2 lock2 locktype2).1 = Outcome.exit 0 ∨
        (test sys os verbose tr path1 flags1 lock1 locktype1
          path2 flags2 lock2 locktype2).1 = Outcome.exit 1) := by
  rcases hrun : test sys os verbose tr path1 flags1 lock1 locktype1
    path2 flags2 lock2 locktype2 with ⟨out, tr1⟩
  have hT := trial_of_eq hrun
  have hS : ∀ {o : Outcome Bool} {t : List Ev},
      Trial sys os verbose tr path1 flags1 lock1 locktype1 path2 flags2 lock2 locktype2 o t →
      out = o := by
    intro o t ht
    have := (trial_sound ht).1
    rw [hrun] at this
    exact this
  refine ⟨?_, ?_, ?_⟩
  · intro b hb
    simp only at hb
    constructor
    · intro hbt
      subst hbt
      cases hT with
      | openA_failed fd1 note hfd1 hneg hnote => simp at hb
      | lockA_failed fd1 note trA hfd1 hpos hnote hlockA => simp at hb
      | fork_failed fd1 note trA pid hfd1 hpos hnote hlockA hpid hfork => simp at hb
      | child_open_failed fd1 note trA fd2 note2 hfd1 hpos hnote hlockA hpid hfd2 hneg2
          hnote2 => simp at hb
      | child_locked fd1 note trA fd2 note2 okB trB hfd1 hpos hnote hlockA hpid hfd2 hpos2
          hnote2 hlockB => simp at hb
      | close_failed fd1 note trA pid status result hfd1 hpos hnote hlockA hpid hfork hstatus
          hresult hclose => simp at hb
      | verdict fd1 note trA pid status hfd1 hpos hnote hlockA hpid hfork hstatus hclose =>
        have hw : sys.WIFEXITED status = true ∧ sys.WEXITSTATUS status = 0 := by
          simpa using hb
        exact ⟨fd1, note, trA, pid, status, hfd1, hpos, hnote, hlockA, hpid, hstatus, hw.1,
          hw.2⟩
    · rintro ⟨fd1, note, trA, pid, status, hfd1, hpos, hnote, hlockA, hpid, hstatus, hw1, hw2⟩
      cases hT with
      | openA_failed fd1' note' hfd1' hneg' hnote' => omega
      | lockA_failed fd1' note' trA' hfd1' hpos' hnote' hlockA' =>
        obtain rfl : fd1' = fd1 := by rw [hfd1, hfd1']
        obtain ⟨t, ht, -⟩ := lock_transfer verbose
          (tr ++ Ev.call (openCall sys path1 flags1 lock1 locktype1) fd1' :: note) hlockA'
          (by simp [hnote, hnote'])
        rw [hlockA] at ht
        simp at ht
      | fork_failed fd1 note trA pid hfd1 hpos hnote hlockA hpid hfork => simp at hb
      | child_open_failed fd1 note trA fd2 note2 hfd1 hpos hnote hlockA hpid hfd2 hneg2
          hnote2 => simp at hb
      | child_locked fd1 note trA fd2 note2 okB trB hfd1 hpos hnote hlockA hpid hfd2 hpos2
          hnote2 hlockB => simp at hb
      | close_failed fd1 note trA pid status result hfd1 hpos hnote hlockA hpid hfork hstatus
          hresult hclose => simp at hb
      | verdict fd1' note' trA' pid' status' hfd1' hpos' hnote' hlockA' hpid' hfork' hstatus'
          hclose' =>
        obtain rfl : fd1' = fd1 := by rw [hfd1, hfd1']
        obtain ⟨t, ht, hc⟩ := lock_transfer verbose
          (tr ++ Ev.call (openCall sys path1 flags1 lock1 locktype1) fd1' :: note) hlockA'
          (by simp [hnote, hnote'])
        rw [hlockA] at ht
        simp only [Prod.mk.injEq, true_and] at ht
        subst ht
        rw [← hc] at hpid' hstatus'
        obtain rfl : pid' = pid := by rw [hpid, hpid']
        obtain rfl : status' = status := by rw [hstatus, hstatus']
        simpa [hw1, hw2] using hb.symm
  · simp only
    constructor
    · intro hb
      cases hT with
      | openA_failed fd1 note hfd1 hneg hnote => simp at hb
      | lockA_failed fd1 note trA hfd1 hpos hnote hlockA => simp at hb
      | fork_failed fd1 note trA pid hfd1 hpos hnote hlockA hpid hfork => simp at hb
      | child_open_failed fd1 note trA fd2 note2 hfd1 hpos hnote hlockA hpid hfd2 hneg2
          hnote2 => simp at hb
      | child_locked fd1 note trA fd2 note2 okB trB hfd1 hpos hnote hlockA hpid hfd2 hpos2
          hnote2 hlockB =>
        cases okB with
        | false => simp at hb
        | true =>
          exact ⟨fd1, note, trA, fd2, note2, _, hfd1, hpos, hnote, hlockA, hpid, hfd2, hpos2,
            hnote2, hlockB⟩
      | close_failed fd1 note trA pid status result hfd1 hpos hnote hlockA hpid hfork hstatus
          hresult hclose => simp at hb
      | verdict fd1 note trA pid status hfd1 hpos hnote hlockA hpid hfork hstatus hclose =>
        simp at hb
    · rintro ⟨fd1, note, trA, fd2, note2, trB, hfd1, hpos, hnote, hlockA, hpid, hfd2, hpos2,
        hnote2, hlockB⟩
      exact hS (Trial.child_locked fd1 note trA fd2 note2 true trB hfd1 hpos hnote hlockA hpid
        hfd2 hpos2 hnote2 hlockB)
  · intro fd1 note trA hfd1 hpos hnote hlockA hpid
    simp only
    by_cases hneg2 : os (calls trA ++ [(Call.fork, 0)])
        (openCall sys path2 flags2 lock2 locktype2) < 0
    · right
      exact hS (Trial.child_open_failed fd1 note trA _ [] hfd1 hpos hnote hlockA hpid rfl
        hneg2 rfl)
    · obtain ⟨okB, hokB⟩ := lock_returns sys os verbose
        (trA ++ Ev.call Call.fork 0 :: Ev.call (openCall sys path2 flags2 lock2 locktype2)
          (os (calls trA ++ [(Call.fork, 0)]) (openCall sys path2 flags2 lock2 locktype2))
          :: []) (os (calls trA ++ [(Call.fork, 0)])
            (openCall sys path2 flags2 lock2 locktype2)) lock2 locktype2
      have hrunB := hS (Trial.child_locked fd1 note trA _ [] okB _ hfd1 hpos hnote hlockA hpid
        rfl (not_lt.mp hneg2) rfl (Prod.ext hokB rfl))
      cases okB with
      | false => right; simpa using hrunB
      | true => left; simpa using hrunB

/-! ## Order of the operations of a trial -/

/-- C7: in every run of `test` the first operation is party A's `open`.  If that
`open` fails, or party A's `lock` returns false, nothing but party A's lock
requests and diagnostic output follows: no `fork`, hence nothing of party B.
A `fork` in the trace comes after party A's successful `open` and after party
A's `lock` has returned true, with only party A's lock requests in between;
party B's `open` and lock requests come after that `fork`, in the child
(`fork` answered 0) only: in the parent no `open`, `flock` or `fcntl` follows
the `fork`. -/
theorem fork_after_partyA (sys : Sys) (os : OS) (verbose : Int) (tr : List Ev)
    (path1 : String) (flags1 : Nat) (lock1 : Lock) (locktype1 : Int)
    (path2 : String) (flags2 : Nat) (lock2 : Lock) (locktype2 : Int) :
    ∃ fd1 new,
      fd1 = os (calls tr) (openCall sys path1 flags1 lock1 locktype1) ∧
      (test sys os verbose tr path1 flags1 lock1 locktype1 path2 flags2 lock2 locktype2).2 =
        tr ++ Ev.call (openCall sys path1 flags1 lock1 locktype1) fd1 :: new ∧
      ((fd1 < 0 ∨ ∃ note trA, calls note = [] ∧
          lock sys os verbose
            (tr ++ Ev.call (openCall sys path1 flags1 lock1 locktype1) fd1 :: note)
            fd1 lock1 locktype1 = (Outcome.ret false, trA)) →
        ∀ e ∈ new, e.isFork = false ∧ (e.isLockOn fd1 = true ∨ e.isOutput = true)) ∧
      (∀ pid, Ev.call Call.fork pid ∈ new →
        0 ≤ fd1 ∧ ∃ note ext post,
          calls note = [] ∧
          lock sys os verbose
            (tr ++ Ev.call (openCall sys path1 flags1 lock1 locktype1) fd1 :: note)
            fd1 lock1 locktype1 =
            (Outcome.ret true,
              tr ++ Ev.call (openCall sys path1 flags1 lock1 locktype1) fd1 :: (note ++ ext)) ∧
          (∀ e ∈ ext, e.isLockOn fd1 = true ∨ e.isOutput = true) ∧
          new = note ++ ext ++ Ev.call Call.fork pid :: post ∧
          (∀ e ∈ post, e.isFork = false) ∧
          (pid = 0 → ∃ fd2 rest,
            post = Ev.call (openCall sys path2 flags2 lock2 locktype2) fd2 :: rest ∧
            ∀ e ∈ rest, e.isLockOn fd2 = true ∨ e.isOutput = true) ∧
          (pid ≠ 0 → ∀ e ∈ post, e.isPartyCall = false)) := by
  obtain ⟨fd1, noteA, extA, hfd1, hnoteA, hextA, hshape⟩ := trial_shape
    (test_trial sys os verbose tr path1 flags1 lock1 locktype1 path2 flags2 lock2 locktype2)
  have hnf : ∀ e ∈ noteA ++ extA, e.isFork = false ∧
      (e.isLockOn fd1 = true ∨ e.isOutput = true) := by
    intro e he
    have : e.isLockOn fd1 = true ∨ e.isOutput = true := by
      rcases List.mem_append.mp he with he | he
      · exact Or.inr (output_of_calls_nil noteA hnoteA e he)
      · exact hextA e he
    exact ⟨not_fork_of_lock_event fd1 e this, this⟩
  rcases hshape with ⟨hneg, hext, -, htr⟩ | ⟨hpos, okA, hlockA, hrest⟩
  · subst hext
    refine ⟨fd1, noteA, hfd1, htr, ?_, ?_⟩
    · intro _ e he
      exact hnf e (by simpa using he)
    · intro pid hmem
      have := (hnf _ (by simpa using hmem)).1
      simp [Ev.isFork] at this
  · rcases hrest with ⟨hokA, -, htr⟩ | ⟨hokA, pid, post, hpid, htr, hpost⟩
    · subst hokA
      refine ⟨fd1, noteA ++ extA, hfd1, htr, ?_, ?_⟩
      · intro _ e he
        exact hnf e he
      · intro pid hmem
        have := (hnf _ hmem).1
        simp [Ev.isFork] at this
    · subst hokA
      refine ⟨fd1, noteA ++ extA ++ Ev.call Call.fork pid :: post, hfd1, htr, ?_, ?_⟩
      · rintro (hneg | ⟨note, trA, hnote, hfail⟩)
        · omega
        · obtain ⟨t, ht, -⟩ := lock_transfer verbose
            (tr ++ Ev.call (openCall sys path1 flags1 lock1 locktype1) fd1 :: noteA) hfail
            (by simp [hnote, hnoteA])
          rw [hlockA] at ht
          simp at ht
      · have hpostF : ∀ e ∈ post, e.isFork = false := by
          rcases hpost with ⟨-, hp, -⟩ | ⟨-, fd2, rest, hp, hrestB, -⟩ |
            ⟨-, status, result, ⟨-, hp, -⟩ | ⟨-, hp, -⟩⟩
          · subst hp; simp [Ev.isFork]
          · subst hp
            intro e he
            rcases List.mem_cons.mp he with rfl | he
            · simp [Ev.isFork, openCall]
            · exact not_fork_of_lock_event fd2 e (hrestB e he)
          · subst hp; simp [Ev.isFork]
          · subst hp; simp [Ev.isFork]
        intro pid2 hmem
        have hpid2 : pid2 = pid := by
          rcases List.mem_append.mp hmem with hm | hm
          · have := (hnf _ hm).1
            simp [Ev.isFork] at this
          · rcases List.mem_cons.mp hm with hm | hm
            · simpa using hm
            · have := hpostF _ hm
              simp [Ev.isFork] at this
        subst hpid2
        refine ⟨hpos, noteA, extA, post, hnoteA, hlockA, hextA, rfl, hpostF, ?_, ?_⟩
        · intro hz
          rcases hpost with ⟨hlt, -, -⟩ | ⟨-, fd2, rest, hp, hrestB, -⟩ | ⟨hlt, -⟩
          · omega
          · exact ⟨fd2, rest, hp, hrestB⟩
          · omega
        · intro hnz
          rcases hpost with ⟨-, hp, -⟩ | ⟨hz, -⟩ |
            ⟨-, status, result, ⟨-, hp, -⟩ | ⟨-, hp, -⟩⟩
          · subst hp; simp [Ev.isPartyCall]
          · exact absurd hz hnz
          · subst hp; simp [Ev.isPartyCall]
          · subst hp; simp [Ev.isPartyCall]

/-- C10: in every run of `test` whose `fork` answers a positive pid, the parent
issues `waitpid(pid, &status, 0)` and then `close(fd1)` on the descriptor of
party A's `open`, directly after the `fork`, once each (before the `fork` there
are only `open`, `flock`, `fcntl` and output); a verdict is returned only after
them and only if `close` answered 0, otherwise the run ends with `exit(1)`.
If `fork` answers a negative value the run ends with `exit(1)` right after the
`fork`, without `waitpid`. -/
theorem parent_waits_then_closes (sys : Sys) (os : OS) (verbose : Int) (tr : List Ev)
    (path1 : String) (flags1 : Nat) (lock1 : Lock) (locktype1 : Int)
    (path2 : String) (flags2 : Nat) (lock2 : Lock) (locktype2 : Int) :
    ∃ fd1 new,
      fd1 = os (calls tr) (openCall sys path1 flags1 lock1 locktype1) ∧
      (test sys os verbose tr path1 flags1 lock1 locktype1 path2 flags2 lock2 locktype2).2 =
        tr ++ new ∧
      ∀ pid, Ev.call Call.fork pid ∈ new →
        (0 < pid → ∃ pre status result,
          (∀ e ∈ pre, e.isPartyCall = true ∨ e.isOutput = true) ∧
          ((result = 0 ∧
              new = pre ++ [Ev.call Call.fork pid, Ev.call (Call.waitpid pid 0) status,
                Ev.call (Call.close fd1) result] ∧
              ∃ b, (test sys os verbose tr path1 flags1 lock1 locktype1
                path2 flags2 lock2 locktype2).1 = Outcome.ret b) ∨
           (result ≠ 0 ∧
              new = pre ++ [Ev.call Call.fork pid, Ev.call (Call.waitpid pid 0) status,
                Ev.call (Call.close fd1) result, Ev.perror "close"] ∧
              (test sys os verbose tr path1 flags1 lock1 locktype1
                path2 flags2 lock2 locktype2).1 = Outcome.exit 1))) ∧
        (pid < 0 → ∃ pre,
          (∀ e ∈ pre, e.isPartyCall = true ∨ e.isOutput = true) ∧
          new = pre ++ [Ev.call Call.fork pid, Ev.perror "fork"] ∧
          (test sys os verbose tr path1 flags1 lock1 locktype1
            path2 flags2 lock2 locktype2).1 = Outcome.exit 1) := by
  obtain ⟨fd1, noteA, extA, hfd1, hnoteA, hextA, hshape⟩ := trial_shape
    (test_trial sys os verbose tr path1 flags1 lock1 locktype1 path2 flags2 lock2 locktype2)
  have hpre : ∀ e ∈ Ev.call (openCall sys path1 flags1 lock1 locktype1) fd1 :: (noteA ++ extA),
      (e.isPartyCall = true ∨ e.isOutput = true) ∧ e.isFork = false := by
    intro e he
    rcases List.mem_cons.mp he with rfl | he
    · simp [Ev.isPartyCall, Ev.isFork, openCall]
    · have : e.isLockOn fd1 = true ∨ e.isOutput = true := by
        rcases List.mem_append.mp he with he | he
        · exact Or.inr (output_of_calls_nil noteA hnoteA e he)
        · exact hextA e he
      exact ⟨party_of_lock_event fd1 e this, not_fork_of_lock_event fd1 e this⟩
  rcases hshape with ⟨hneg, hext, -, htr⟩ | ⟨hpos, okA, hlockA, hrest⟩
  · subst hext
    refine ⟨fd1, _, hfd1, htr, ?_⟩
    intro pid hmem
    have := (hpre (Ev.call Call.fork pid) (by simpa using hmem)).2
    simp [Ev.isFork] at this
  · rcases hrest with ⟨hokA, -, htr⟩ | ⟨hokA, pid, post, hpid, htr, hpost⟩
    · refine ⟨fd1, _, hfd1, htr, ?_⟩
      intro pid hmem
      have := (hpre (Ev.call Call.fork pid) hmem).2
      simp [Ev.isFork] at this
    · refine ⟨fd1, Ev.call (openCall sys path1 flags1 lock1 locktype1) fd1 ::
        (noteA ++ extA ++ Ev.call Call.fork pid :: post), hfd1, htr, ?_⟩
      have hpostF : ∀ e ∈ post, e.isFork = false := by
        rcases hpost with ⟨-, hp, -⟩ | ⟨-, fd2, rest, hp, hrestB, -⟩ |
          ⟨-, status, result, ⟨-, hp, -⟩ | ⟨-, hp, -⟩⟩
        · subst hp; simp [Ev.isFork]
        · subst hp
          intro e he
          rcases List.mem_cons.mp he with rfl | he
          · simp [Ev.isFork, openCall]
          · exact not_fork_of_lock_event fd2 e (hrestB e he)
        · subst hp; simp [Ev.isFork]
        · subst hp; simp [Ev.isFork]
      intro pid2 hmem
      have hpid2 : pid2 = pid := by
        have hmem2 : Ev.call Call.fork pid2 ∈
            (Ev.call (openCall sys path1 flags1 lock1 locktype1) fd1 :: (noteA ++ extA)) ++
              Ev.call Call.fork pid :: post := by
          simpa using hmem
        rcases List.mem_append.mp hmem2 with hm | hm
        · have := (hpre _ hm).2
          simp [Ev.isFork] at this
        · rcases List.mem_cons.mp hm with hm | hm
          · simpa using hm
          · have := hpostF _ hm
            simp [Ev.isFork] at this
      subst hpid2
      constructor
      · intro hparent
        rcases hpost with ⟨hlt, -, -⟩ | ⟨hz, -⟩ |
          ⟨-, status, result, ⟨hres, hp, hout⟩ | ⟨hres, hp, hout⟩⟩
        · omega
        · omega
        · refine ⟨_, status, result, fun e he => (hpre e he).1, Or.inl ⟨hres, ?_, _, hout⟩⟩
          subst hp
          simp
        · refine ⟨_, status, result, fun e he => (hpre e he).1, Or.inr ⟨hres, ?_, hout⟩⟩
          subst hp
          simp
      · intro hfail
        rcases hpost with ⟨-, hp, hout⟩ | ⟨hz, -⟩ | ⟨hlt, -⟩
        · refine ⟨_, fun e he => (hpre e he).1, ?_, hout⟩
          subst hp
          simp
        · omega
        · omega

/-! ## The flags of the `open` requests -/

/-- C6: a run of `test` issues party A's `open` and, exactly when it is the
child, party B's `open`, and no other.  The flags of a party's `open` are
`flags | locks[lock] | O_NONBLOCK` when its mechanism is `tsharemode` and
`flags | O_NONBLOCK` when it is `tflock` or `tfcntl`.  With disposition `lnone`,
or with any mechanism other than `tsharemode`, they are `flags | O_NONBLOCK`
whatever the disposition, and (on a system where `O_NONBLOCK` shares no bit with
`O_SHLOCK` and `O_EXLOCK`) they carry exactly the `O_SHLOCK` / `O_EXLOCK` bits
that the caller passed in `flags`. -/
theorem test_open_flags (sys : Sys) (os : OS) (verbose : Int) (tr : List Ev)
    (path1 : String) (flags1 : Nat) (lock1 : Lock) (locktype1 : Int)
    (path2 : String) (flags2 : Nat) (lock2 : Lock) (locktype2 : Int) :
    ∃ fA fB new,
      (test sys os verbose tr path1 flags1 lock1 locktype1 path2 flags2 lock2 locktype2).2 =
        tr ++ new ∧
      (Ev.call Call.fork 0 ∉ new → openRequests new = [(path1, fA)]) ∧
      (Ev.call Call.fork 0 ∈ new → openRequests new = [(path1, fA), (path2, fB)]) ∧
      (locktype1 = tsharemode → fA = flags1 ||| locks sys lock1 ||| sys.O_NONBLOCK) ∧
      (locktype1 = tflock ∨ locktype1 = tfcntl → fA = flags1 ||| sys.O_NONBLOCK) ∧
      (lock1 = Lock.lnone ∨ locktype1 ≠ tsharemode →
        fA = flags1 ||| sys.O_NONBLOCK ∧
        (sys.O_NONBLOCK &&& sys.O_SHLOCK = 0 → fA &&& sys.O_SHLOCK = flags1 &&& sys.O_SHLOCK) ∧
        (sys.O_NONBLOCK &&& sys.O_EXLOCK = 0 → fA &&& sys.O_EXLOCK = flags1 &&& sys.O_EXLOCK)) ∧
      (locktype2 = tsharemode → fB = flags2 ||| locks sys lock2 ||| sys.O_NONBLOCK) ∧
      (locktype2 = tflock ∨ locktype2 = tfcntl → fB = flags2 ||| sys.O_NONBLOCK) ∧
      (lock2 = Lock.lnone ∨ locktype2 ≠ tsharemode →
        fB = flags2 ||| sys.O_NONBLOCK ∧
        (sys.O_NONBLOCK &&& sys.O_SHLOCK = 0 → fB &&& sys.O_SHLOCK = flags2 &&& sys.O_SHLOCK) ∧
        (sys.O_NONBLOCK &&& sys.O_EXLOCK = 0 → fB &&& sys.O_EXLOCK = flags2 &&& sys.O_EXLOCK)) := by
  have hflags : ∀ (flags : Nat) (lk : Lock) (lt : Int),
      (lt = tsharemode → openFlags sys flags lk lt ||| sys.O_NONBLOCK =
        flags ||| locks sys lk ||| sys.O_NONBLOCK) ∧
      (lt = tflock ∨ lt = tfcntl → openFlags sys flags lk lt ||| sys.O_NONBLOCK =
        flags ||| sys.O_NONBLOCK) ∧
      (lk = Lock.lnone ∨ lt ≠ tsharemode →
        openFlags sys flags lk lt ||| sys.O_NONBLOCK = flags ||| sys.O_NONBLOCK ∧
        (sys.O_NONBLOCK &&& sys.O_SHLOCK = 0 →
          (openFlags sys flags lk lt ||| sys.O_NONBLOCK) &&& sys.O_SHLOCK =
            flags &&& sys.O_SHLOCK) ∧
        (sys.O_NONBLOCK &&& sys.O_EXLOCK = 0 →
          (openFlags sys flags lk lt ||| sys.O_NONBLOCK) &&& sys.O_EXLOCK =
            flags &&& sys.O_EXLOCK)) := by
    intro flags lk lt
    have hbase : lk = Lock.lnone ∨ lt ≠ tsharemode → openFlags sys flags lk lt = flags := by
      rintro (rfl | hne)
      · simp [openFlags, locks]
      · simp [openFlags, hne]
    refine ⟨?_, ?_, ?_⟩
    · intro h
      simp [openFlags, h]
    · rintro (h | h) <;> subst h <;> simp [openFlags, tflock, tfcntl, tsharemode]
    · intro h
      rw [hbase h]
      refine ⟨rfl, ?_, ?_⟩
      · intro hd
        rw [Nat.and_distrib_right, hd, Nat.or_zero]
      · intro hd
        rw [Nat.and_distrib_right, hd, Nat.or_zero]
  obtain ⟨hA1, hA2, hA3⟩ := hflags flags1 lock1 locktype1
  obtain ⟨hB1, hB2, hB3⟩ := hflags flags2 lock2 locktype2
  refine ⟨openFlags sys flags1 lock1 locktype1 ||| sys.O_NONBLOCK,
    openFlags sys flags2 lock2 locktype2 ||| sys.O_NONBLOCK, ?_⟩
  obtain ⟨fd1, noteA, extA, hfd1, hnoteA, hextA, hshape⟩ := trial_shape
    (test_trial sys os verbose tr path1 flags1 lock1 locktype1 path2 flags2 lock2 locktype2)
  have hpre : ∀ e ∈ noteA ++ extA, e.isLockOn fd1 = true ∨ e.isOutput = true := by
    intro e he
    rcases List.mem_append.mp he with he | he
    · exact Or.inr (output_of_calls_nil noteA hnoteA e he)
    · exact hextA e he
  have hpreO := openRequests_of_lock_events fd1 _ hpre
  have hN : openRequests noteA = [] :=
    openRequests_of_lock_events fd1 noteA (fun e he => hpre e (List.mem_append_left _ he))
  have hE : openRequests extA = [] :=
    openRequests_of_lock_events fd1 extA (fun e he => hpre e (List.mem_append_right _ he))
  have hpreF : Ev.call Call.fork 0 ∉ noteA ++ extA := by
    intro hm
    have := not_fork_of_lock_event fd1 _ (hpre _ hm)
    simp [Ev.isFork] at this
  suffices hmain : ∃ new,
      (test sys os verbose tr path1 flags1 lock1 locktype1 path2 flags2 lock2 locktype2).2 =
        tr ++ new ∧
      (Ev.call Call.fork 0 ∉ new → openRequests new =
        [(path1, openFlags sys flags1 lock1 locktype1 ||| sys.O_NONBLOCK)]) ∧
      (Ev.call Call.fork 0 ∈ new → openRequests new =
        [(path1, openFlags sys flags1 lock1 locktype1 ||| sys.O_NONBLOCK),
         (path2, openFlags sys flags2 lock2 locktype2 ||| sys.O_NONBLOCK)]) by
    obtain ⟨new, h1, h2, h3⟩ := hmain
    exact ⟨new, h1, h2, h3, hA1, hA2, hA3, hB1, hB2, hB3⟩
  rcases hshape with ⟨hneg, hext, -, htr⟩ | ⟨hpos, okA, hlockA, hrest⟩
  · subst hext
    refine ⟨_, htr, ?_, ?_⟩
    · intro _
      simpa [openRequests, openCall] using hpreO
    · intro hm
      exact absurd (by simpa [openCall] using hm) hpreF
  · rcases hrest with ⟨hokA, -, htr⟩ | ⟨hokA, pid, post, hpid, htr, hpost⟩
    · refine ⟨_, htr, ?_, ?_⟩
      · intro _
        simpa [openRequests, openCall] using hpreO
      · intro hm
        exact absurd (by simpa [openCall] using hm) hpreF
    · refine ⟨_, htr, ?_, ?_⟩
      · intro hnot
        rcases hpost with ⟨-, hp, -⟩ | ⟨hz, -⟩ |
          ⟨-, status, result, ⟨-, hp, -⟩ | ⟨-, hp, -⟩⟩
        · subst hp
          simp [openRequests, openCall, hN, hE]
        · subst hz
          exact absurd (by simp) hnot
        · subst hp
          simp [openRequests, openCall, hN, hE]
        · subst hp
          simp [openRequests, openCall, hN, hE]
      · intro hm
        rcases hpost with ⟨hlt, hp, -⟩ | ⟨hz, fd2, rest, hp, hrestB, -⟩ |
          ⟨hlt, status, result, ⟨-, hp, -⟩ | ⟨-, hp, -⟩⟩
        · subst hp
          have hm2 : Ev.call Call.fork 0 ∈ noteA ++ extA ∨ pid = 0 := by
            rcases List.mem_cons.mp hm with hm | hm
            · simp [openCall] at hm
            · rcases List.mem_append.mp hm with hm | hm
              · exact Or.inl hm
              · right
                simpa [eq_comm] using hm
          rcases hm2 with hm2 | hm2
          · exact absurd hm2 hpreF
          · omega
        · subst hp
          have hrestO := openRequests_of_lock_events fd2 rest hrestB
          simp [openRequests, openCall, hN, hE, hrestO]
        · subst hp
          have hm2 : Ev.call Call.fork 0 ∈ noteA ++ extA ∨ pid = 0 := by
            rcases List.mem_cons.mp hm with hm | hm
            · simp [openCall] at hm
            · rcases List.mem_append.mp hm with hm | hm
              · exact Or.inl hm
              · right
                simpa [eq_comm] using hm
          rcases hm2 with hm2 | hm2
          · exact absurd hm2 hpreF
          · omega
        · subst hp
          have hm2 : Ev.call Call.fork 0 ∈ noteA ++ extA ∨ pid = 0 := by
            rcases List.mem_cons.mp hm with hm | hm
            · simp [openCall] at hm
            · rcases List.mem_append.mp hm with hm | hm
              · exact Or.inl hm
              · right
                simpa [eq_comm] using hm
          rcases hm2 with hm2 | hm2
          · exact absurd hm2 hpreF
          · omega

/-! ## Verbosity -/

/-- C8: the verbosity has no effect on any verdict.  Two runs of `lock`, and two
runs of `test`, with the same arguments against the same oracle, at any two
verbosity levels and from traces that contain the same system calls, return the
same outcome and issue the same system calls with the same answers; they can
differ in their diagnostic output only. -/
theorem verbose_no_effect (sys : Sys) (os : OS) (v1 v2 : Int) (tr1 tr2 : List Ev)
    (fd : Int) (lk : Lock) (locktype : Int)
    (path1 : String) (flags1 : Nat) (lock1 : Lock) (locktype1 : Int)
    (path2 : String) (flags2 : Nat) (lock2 : Lock) (locktype2 : Int)
    (hcalls : calls tr1 = calls tr2) :
    ((lock sys os v1 tr1 fd lk locktype).1 = (lock sys os v2 tr2 fd lk locktype).1 ∧
      calls (lock sys os v1 tr1 fd lk locktype).2 =
        calls (lock sys os v2 tr2 fd lk locktype).2) ∧
    ((test sys os v1 tr1 path1 flags1 lock1 locktype1 path2 flags2 lock2 locktype2).1 =
        (test sys os v2 tr2 path1 flags1 lock1 locktype1 path2 flags2 lock2 locktype2).1 ∧
      calls (test sys os v1 tr1 path1 flags1 lock1 locktype1
          path2 flags2 lock2 locktype2).2 =
        calls (test sys os v2 tr2 path1 flags1 lock1 locktype1
          path2 flags2 lock2 locktype2).2) :=
  ⟨lock_calls_indep sys os v1 v2 tr1 tr2 fd lk locktype hcalls,
    test_calls_indep sys os v1 v2 tr1 tr2 path1 flags1 lock1 locktype1
      path2 flags2 lock2 locktype2 hcalls⟩

/-- C1: with the system as an oracle, a run of `test` that returns a value
returns true exactly when party A's `open` succeeded, party A's `lock` returned
true, and the status delivered by `waitpid` satisfies `WIFEXITED` with
`WEXITSTATUS` equal to 0 (so an abnormally terminated child gives false).  A
run ends in `exit(0)` exactly when it is the child (party A succeeded and
`fork` answered 0) and party B's `open` and `lock` both succeeded; every other
run of the child ends in `exit(1)`. -/
theorem test_verdict (sys : Sys) (os : OS) (verbose : Int) (tr : List Ev)
    (path1 : String) (flags1 : Nat) (lock1 : Lock) (locktype1 : Int)
    (path2 : String) (flags2 : Nat) (lock2 : Lock) (locktype2 : Int) :
    (∀ b, (test sys os verbose tr path1 flags1 lock1 locktype1
          path2 flags2 lock2 locktype2).1 = Outcome.ret b →
      (b = true ↔ ∃ fd1 note trA pid status,
        fd1 = os (calls tr) (openCall sys path1 flags1 lock1 locktype1) ∧ 0 ≤ fd1 ∧
        calls note = [] ∧
        lock sys os verbose
          (tr ++ Ev.call (openCall sys path1 flags1 lock1 locktype1) fd1 :: note)
          fd1 lock1 locktype1 = (Outcome.ret true, trA) ∧
        pid = os (calls trA) Call.fork ∧
        status = os (calls trA ++ [(Call.fork, pid)]) (Call.waitpid pid 0) ∧
        sys.WIFEXITED status = true ∧ sys.WEXITSTATUS status = 0)) ∧
    ((test sys os verbose tr path1 flags1 lock1 locktype1
          path2 flags2 lock2 locktype2).1 = Outcome.exit 0 ↔
      ∃ fd1 note trA fd2 note2 trB,
        fd1 = os (calls tr) (openCall sys path1 flags1 lock1 locktype1) ∧ 0 ≤ fd1 ∧
        calls note = [] ∧
        lock sys os verbose
          (tr ++ Ev.call (openCall sys path1 flags1 lock1 locktype1) fd1 :: note)
          fd1 lock1 locktype1 = (Outcome.ret true, trA) ∧
        os (calls trA) Call.fork = 0 ∧
        fd2 = os (calls trA ++ [(Call.fork, 0)]) (openCall sys path2 flags2 lock2 locktype2) ∧
        0 ≤ fd2 ∧ calls note2 = [] ∧
        lock sys os verbose
          (trA ++ Ev.call Call.fork 0 ::
            Ev.call (openCall sys path2 flags2 lock2 locktype2) fd2 :: note2)
          fd2 lock2 locktype2 = (Outcome.ret true, trB)) ∧
    (∀ fd1 note trA,
        fd1 = os (calls tr) (openCall sys path1 flags1 lock1 locktype1) → 0 ≤ fd1 →
        calls note = [] →
        lock sys os verbose
          (tr ++ Ev.call (openCall sys path1 flags1 lock1 locktype1) fd1 :: note)
          fd1 lock1 locktype1 = (Outcome.ret true, trA) →
        os (calls trA) Call.fork = 0 →
        (test sys os verbose tr path1 flags1 lock1 locktype1
          path2 flags2 lock2 locktype2).1 = Outcome.exit 0 ∨
        (test sys os verbose tr path1 flags1 lock1 locktype1
          path2 flags2 lock2 locktype2).1 = Outcome.exit 1) :=
  test_verdict_aux sys os verbose tr path1 flags1 lock1 locktype1 path2 flags2 lock2 locktype2

/-- C1 at a concrete input: on `osGrant`, with an exclusive `flock` for party A,
the run of the parent returns true, and the theorem yields the run behind that
verdict. -/
theorem test_verdict_witness :
    ∃ fd1 note trA pid status,
      fd1 = osGrant (calls []) (openCall darwin "a" 0 Lock.lexclusive tflock) ∧ 0 ≤ fd1 ∧
      calls note = [] ∧
      lock darwin osGrant 0
        ([] ++ Ev.call (openCall darwin "a" 0 Lock.lexclusive tflock) fd1 :: note)
        fd1 Lock.lexclusive tflock = (Outcome.ret true, trA) ∧
      pid = osGrant (calls trA) Call.fork ∧
      status = osGrant (calls trA ++ [(Call.fork, pid)]) (Call.waitpid pid 0) ∧
      darwin.WIFEXITED status = true ∧ darwin.WEXITSTATUS status = 0 :=
  ((test_verdict darwin osGrant 0 [] "a" 0 Lock.lexclusive tflock
    "b" 1 Lock.lshared tfcntl).1 true (by decide)).mp rfl

/-- C8 at a concrete input: a quiet run and a run at verbosity 2 that starts
after some earlier output. -/
theorem verbose_no_effect_witness :
    ((lock darwin osGrant 0 [] 3 Lock.lshared tflock).1 =
        (lock darwin osGrant 2 [Ev.perror "x"] 3 Lock.lshared tflock).1 ∧
      calls (lock darwin osGrant 0 [] 3 Lock.lshared tflock).2 =
        calls (lock darwin osGrant 2 [Ev.perror "x"] 3 Lock.lshared tflock).2) ∧
    ((test darwin osGrant 0 [] "a" 0 Lock.lexclusive tflock "b" 1 Lock.lshared tfcntl).1 =
        (test darwin osGrant 2 [Ev.perror "x"] "a" 0 Lock.lexclusive tflock
          "b" 1 Lock.lshared tfcntl).1 ∧
      calls (test darwin osGrant 0 [] "a" 0 Lock.lexclusive tflock
          "b" 1 Lock.lshared tfcntl).2 =
        calls (test darwin osGrant 2 [Ev.perror "x"] "a" 0 Lock.lexclusive tflock
          "b" 1 Lock.lshared tfcntl).2) :=
  verbose_no_effect darwin osGrant 0 2 [] [Ev.perror "x"] 3 Lock.lshared tflock
    "a" 0 Lock.lexclusive tflock "b" 1 Lock.lshared tfcntl rfl

/-! ## A failed lock of party A -/

/-- C4 at a concrete input: party A opens the file read-only and asks for an
exclusive record lock, which the system refuses.  `test` returns false, and the
run consists of the `open` (descriptor 3) and the refused `fcntl` only:
descriptor 3 is not closed. -/
theorem test_lockA_failed_no_close :
    test darwin osDenyFcntl 0 [] "file" (modes darwin Mode.mread) Lock.lexclusive tfcntl
        "file" (modes darwin Mode.mread) Lock.lexclusive tfcntl =
      (Outcome.ret false,
        [Ev.call (Call.open "file" 4) 3,
         Ev.call (Call.fcntl 3 8 { l_start := 0, l_len := 0, l_whence := 0, l_type := 3 })
           (-1)]) ∧
    ∀ r, Ev.call (Call.close 3) r ∉
      (test darwin osDenyFcntl 0 [] "file" (modes darwin Mode.mread) Lock.lexclusive tfcntl
        "file" (modes darwin Mode.mread) Lock.lexclusive tfcntl).2 := by
  have h : test darwin osDenyFcntl 0 [] "file" (modes darwin Mode.mread) Lock.lexclusive tfcntl
        "file" (modes darwin Mode.mread) Lock.lexclusive tfcntl =
      (Outcome.ret false,
        [Ev.call (Call.open "file" 4) 3,
         Ev.call (Call.fcntl 3 8 { l_start := 0, l_len := 0, l_whence := 0, l_type := 3 })
           (-1)]) := by decide
  refine ⟨h, ?_⟩
  intro r
  rw [h]
  simp

/-! ## Disposition `lnone` -/

/-- C5 fails as stated: party A requests no lock, yet the trial returns false,
because party B's exclusive record lock on its read-only descriptor is refused:
the child ends with `exit(1)` and the parent, given that status, returns
false. -/
theorem test_lnone_not_always_true :
    (test darwin osDenyFcntlChild 0 [] "file" (modes darwin Mode.mread) Lock.lnone tfcntl
        "file" (modes darwin Mode.mread) Lock.lexclusive tfcntl).1 = Outcome.exit 1 ∧
    (test darwin osDenyFcntl 0 [] "file" (modes darwin Mode.mread) Lock.lnone tfcntl
        "file" (modes darwin Mode.mread) Lock.lexclusive tfcntl).1 = Outcome.ret false := by
  decide

/-! ## The matrix sweep -/

/-- A run of `test` only appends to the trace. -/
theorem test_extends (sys : Sys) (os : OS) (verbose : Int) (tr : List Ev)
    (path1 : String) (flags1 : Nat) (lock1 : Lock) (locktype1 : Int)
    (path2 : String) (flags2 : Nat) (lock2 : Lock) (locktype2 : Int) :
    ∃ new, (test sys os verbose tr path1 flags1 lock1 locktype1
      path2 flags2 lock2 locktype2).2 = tr ++ new := by
  obtain ⟨fd1, noteA, extA, -, -, -, hshape⟩ := trial_shape
    (test_trial sys os verbose tr path1 flags1 lock1 locktype1 path2 flags2 lock2 locktype2)
  rcases hshape with ⟨-, -, -, htr⟩ | ⟨-, okA, -, ⟨-, -, htr⟩ | ⟨-, pid, post, -, htr, -⟩⟩
  · exact ⟨_, htr⟩
  · exact ⟨_, htr⟩
  · exact ⟨_, htr⟩

/-- A loop over a concatenation runs the loop over the first list and then,
unless the program has terminated, the loop over the second. -/
theorem forEach_append {α : Type} (xs ys : List α)
    (body : α → MainState → Outcome Unit × MainState) (st : MainState) :
    forEach (xs ++ ys) body st =
      match forEach xs body st with
      | (Outcome.ret _, st1) => forEach ys body st1
      | (Outcome.exit code, st1) => (Outcome.exit code, st1) := by
  induction xs generalizing st with
  | nil => simp [forEach]
  | cons x xs ih =>
    simp only [List.cons_append, forEach]
    rcases hb : body x st with ⟨o, st1⟩
    cases o with
    | ret u => exact ih st1
    | exit code => rfl

/-- Nested loops are one loop over the pairs in nested order. -/
theorem forEach_bind {α β : Type} (xs : List α) (f : α → List β)
    (body : β → MainState → Outcome Unit × MainState) (st : MainState) :
    forEach (xs.flatMap f) body st = forEach xs (fun x => forEach (f x) body) st := by
  induction xs generalizing st with
  | nil => simp [forEach]
  | cons x xs ih =>
    rw [List.flatMap_cons, forEach_append]
    simp only [forEach]
    rcases hb : forEach (f x) body st with ⟨o, st1⟩
    cases o with
    | ret u => exact ih st1
    | exit code => rfl

/-- The sweep is one loop over `sweepCells`. -/
theorem sweep_eq_forEach_cells (sys : Sys) (os : OS) (verbose : Int) (path1 path2 : String)
    (locktypes0 locktypes1 : Int) (st : MainState) :
    sweep sys os verbose path1 path2 locktypes0 locktypes1 st =
      forEach sweepCells (fun c => sweepBody sys os verbose path1 path2 locktypes0 locktypes1
        c.1 c.2.1 c.2.2.1 c.2.2.2) { st with p := 0 } := by
  unfold sweep sweepCells
  rw [forEach_bind]
  congr 1
  funext lock1 st1
  rw [forEach_bind]
  congr 1
  funext mode1 st2
  rw [forEach_bind]
  congr 1

/-- One iteration of the innermost loop that does not terminate the program:
the trial returned a verdict, and the marker of that verdict is stored at `p`,
which moves on by one. -/
theorem sweepBody_ret {sys : Sys} {os : OS} {verbose : Int} {path1 path2 : String}
    {locktypes0 locktypes1 : Int} {lock1 : Lock} {mode1 : Mode} {lock2 : Lock} {mode2 : Mode}
    {st st1 : MainState}
    (h : sweepBody sys os verbose path1 path2 locktypes0 locktypes1 lock1 mode1 lock2 mode2 st
      = (Outcome.ret (), st1)) :
    ∃ ok new report,
      test sys os verbose st.trace path1 (modes sys mode1) lock1 locktypes0
        path2 (modes sys mode2) lock2 locktypes1 = (Outcome.ret ok, st.trace ++ new) ∧
      st1.trace = st.trace ++ new ++ report ∧
      st1.results = st.results.set st.p (if ok then '.' else 'x') ∧
      st1.p = st.p + 1 ∧
      st1.stores = st.stores ++ [st.p] := by
  obtain ⟨new, hnew⟩ := test_extends sys os verbose st.trace path1 (modes sys mode1) lock1
    locktypes0 path2 (modes sys mode2) lock2 locktypes1
  unfold sweepBody at h
  rcases ht : test sys os verbose st.trace path1 (modes sys mode1) lock1 locktypes0
    path2 (modes sys mode2) lock2 locktypes1 with ⟨o, trT⟩
  rw [ht] at h hnew
  simp only at hnew
  subst hnew
  cases o with
  | exit code => simp at h
  | ret ok =>
    simp only [Prod.mk.injEq, true_and] at h
    subst h
    by_cases hv : verbose ≠ 0
    · exact ⟨ok, new, _, rfl, if_pos hv, rfl, rfl, rfl⟩
    · exact ⟨ok, new, [], rfl, by simp only [if_neg hv, List.append_nil], rfl, rfl, rfl⟩

/-- The loop over a list of cells: when it runs to its end, `p` has advanced
by the number of cells, the offsets stored through `p` are consecutive, the
array below the initial `p` is untouched, and the `k`-th cell holds the marker
of the verdict of the `k`-th trial of the loop. -/
theorem forEach_cells_spec (sys : Sys) (os : OS) (verbose : Int) (path1 path2 : String)
    (locktypes0 locktypes1 : Int) (cs : List (Lock × Mode × Lock × Mode)) :
    ∀ (st st2 : MainState),
    forEach cs (fun c => sweepBody sys os verbose path1 path2 locktypes0 locktypes1
        c.1 c.2.1 c.2.2.1 c.2.2.2) st = (Outcome.ret (), st2) →
    st2.p = st.p + cs.length ∧
    st2.stores = st.stores ++ List.range' st.p cs.length ∧
    st2.results.length = st.results.length ∧
    (∃ post, st2.trace = st.trace ++ post) ∧
    (∀ i, i < st.p → st2.results[i]? = st.results[i]?) ∧
    (∀ k lock1 mode1 lock2 mode2, cs[k]? = some (lock1, mode1, lock2, mode2) →
      st.p + k < st.results.length →
      ∃ pre new post ok,
        test sys os verbose (st.trace ++ pre) path1 (modes sys mode1) lock1 locktypes0
          path2 (modes sys mode2) lock2 locktypes1 =
          (Outcome.ret ok, st.trace ++ pre ++ new) ∧
        st2.trace = st.trace ++ pre ++ new ++ post ∧
        st2.results[st.p + k]? = some (if ok then '.' else 'x')) := by
  induction cs with
  | nil =>
    intro st st2 h
    simp only [forEach, Prod.mk.injEq, true_and] at h
    subst h
    refine ⟨rfl, by simp, rfl, ⟨[], by simp⟩, fun _ _ => rfl, ?_⟩
    intro k lock1 mode1 lock2 mode2 hk
    simp at hk
  | cons c cs ih =>
    intro st st2 h
    simp only [forEach] at h
    rcases hb : sweepBody sys os verbose path1 path2 locktypes0 locktypes1
      c.1 c.2.1 c.2.2.1 c.2.2.2 st with ⟨o, st1⟩
    rw [hb] at h
    cases o with
    | exit code => simp at h
    | ret u =>
      simp only at h
      obtain ⟨ok, new, report, htest, htr1, hres1, hp1, hst1⟩ := sweepBody_ret hb
      obtain ⟨hp2, hst2, hlen2, ⟨post2, htr2⟩, hlow2, hcell2⟩ := ih st1 st2 h
      have hlen1 : st1.results.length = st.results.length := by
        rw [hres1]; simp
      refine ⟨?_, ?_, ?_, ?_, ?_, ?_⟩
      · rw [hp2, hp1]; simp; omega
      · rw [hst2, hst1, hp1]
        simp [List.range'_succ]
      · rw [hlen2, hlen1]
      · exact ⟨new ++ report ++ post2, by rw [htr2, htr1]; simp⟩
      · intro i hi
        rw [hlow2 i (by omega), hres1]
        simp [List.getElem?_set]
        intro hne
        omega
      · intro k lock1 mode1 lock2 mode2 hk hbound
        cases k with
        | zero =>
          simp only [List.getElem?_cons_zero, Option.some.injEq] at hk
          subst hk
          refine ⟨[], new, report ++ post2, ok, ?_, ?_, ?_⟩
          · simpa using htest
          · rw [htr2, htr1]; simp
          · rw [Nat.add_zero] at hbound ⊢
            rw [hlow2 st.p (by omega), hres1]
            simp [List.getElem?_set, hbound]
        | succ k =>
          simp only [List.getElem?_cons_succ] at hk
          obtain ⟨pre, new2, post, ok2, ht2, htr, hc⟩ :=
            hcell2 k lock1 mode1 lock2 mode2 hk (by rw [hlen1, hp1]; omega)
          refine ⟨new ++ report ++ pre, new2, post, ok2, ?_, ?_, ?_⟩
          · rw [htr1] at ht2
            simpa [List.append_assoc] using ht2
          · rw [htr, htr1]; simp
          · rw [hp1] at hc
            rw [← hc]
            congr 1
            omega

/-- The cell visited in position `9 * (3 * lock1 + mode1) + (3 * lock2 + mode2)` of
the sweep is `(lock1, mode1, lock2, mode2)`. -/
theorem sweepCells_get (lock1 : Lock) (mode1 : Mode) (lock2 : Lock) (mode2 : Mode) :
    sweepCells[9 * (3 * lock1.toNat + mode1.toNat) + (3 * lock2.toNat + mode2.toNat)]? =
      some (lock1, mode1, lock2, mode2) := by
  cases lock1 <;> cases mode1 <;> cases lock2 <;> cases mode2 <;> rfl

/-- C2: when the sweep loop of `main` runs to its end, `p` has stored through
the offsets 0, 1, ..., 80 of the 9x9 array `results`, in this order, each once
and none outside the array, and for all dispositions `lock1`, `lock2` and all
modes `mode1`, `mode2` the cell `results[3*lock1 + mode1][3*lock2 + mode2]`
holds `'.'` if the trial `test(path1, modes[mode1], lock1, locktypes[0], path2,
modes[mode2], lock2, locktypes[1])` run by the sweep returned true and `'x'` if
it returned false. -/
theorem sweep_fills_grid (sys : Sys) (os : OS) (verbose : Int) (path1 path2 : String)
    (locktypes0 locktypes1 : Int) (st st2 : MainState)
    (hlen : st.results.length = 81)
    (h : sweep sys os verbose path1 path2 locktypes0 locktypes1 st = (Outcome.ret (), st2)) :
    st2.stores = st.stores ++ List.range 81 ∧
    st2.p = 81 ∧
    st2.results.length = 81 ∧
    ∀ (lock1 : Lock) (mode1 : Mode) (lock2 : Lock) (mode2 : Mode),
      ∃ pre new post ok,
        test sys os verbose (st.trace ++ pre) path1 (modes sys mode1) lock1 locktypes0
          path2 (modes sys mode2) lock2 locktypes1 =
          (Outcome.ret ok, st.trace ++ pre ++ new) ∧
        st2.trace = st.trace ++ pre ++ new ++ post ∧
        st2.cell (3 * lock1.toNat + mode1.toNat) (3 * lock2.toNat + mode2.toNat) =
          some (if ok then '.' else 'x') := by
  rw [sweep_eq_forEach_cells] at h
  obtain ⟨hp, hstores, hlen2, -, -, hcell⟩ := forEach_cells_spec sys os verbose path1 path2
    locktypes0 locktypes1 sweepCells _ st2 h
  have hcount : sweepCells.length = 81 := rfl
  simp only [hcount, Nat.zero_add] at hp hstores
  refine ⟨?_, hp, by rw [hlen2]; exact hlen, ?_⟩
  · rw [hstores, List.range_eq_range']
  · intro lock1 mode1 lock2 mode2
    have hl : lock1.toNat < 3 := by cases lock1 <;> decide
    have hm : mode1.toNat < 3 := by cases mode1 <;> decide
    have hl2 : lock2.toNat < 3 := by cases lock2 <;> decide
    have hm2 : mode2.toNat < 3 := by cases mode2 <;> decide
    obtain ⟨pre, new, post, ok, ht, htr, hc⟩ := hcell _ lock1 mode1 lock2 mode2
      (sweepCells_get lock1 mode1 lock2 mode2) (by simp only [hlen]; omega)
    refine ⟨pre, new, post, ok, ht, htr, ?_⟩
    unfold MainState.cell
    rw [if_pos ⟨by omega, by omega⟩]
    simpa using hc

/-- C2 at a concrete input: the sweep over the mechanism `tsharemode` for both
parties, from the initial state of `main`, on `osGrant`. -/
theorem sweep_fills_grid_witness :
    (sweep darwin osGrant 0 "a" "b" tsharemode tsharemode MainState.init).2.stores =
      MainState.init.stores ++ List.range 81 ∧
    (sweep darwin osGrant 0 "a" "b" tsharemode tsharemode MainState.init).2.p = 81 ∧
    (sweep darwin osGrant 0 "a" "b" tsharemode tsharemode MainState.init).2.results.length
      = 81 ∧
    ∀ (lock1 : Lock) (mode1 : Mode) (lock2 : Lock) (mode2 : Mode),
      ∃ pre new post ok,
        test darwin osGrant 0 (MainState.init.trace ++ pre) "a" (modes darwin mode1) lock1
          tsharemode "b" (modes darwin mode2) lock2 tsharemode =
          (Outcome.ret ok, MainState.init.trace ++ pre ++ new) ∧
        (sweep darwin osGrant 0 "a" "b" tsharemode tsharemode MainState.init).2.trace =
          MainState.init.trace ++ pre ++ new ++ post ∧
        (sweep darwin osGrant 0 "a" "b" tsharemode tsharemode MainState.init).2.cell
          (3 * lock1.toNat + mode1.toNat) (3 * lock2.toNat + mode2.toNat) =
          some (if ok then '.' else 'x') :=
  sweep_fills_grid darwin osGrant 0 "a" "b" tsharemode tsharemode MainState.init _
    (by decide) (Prod.ext (by decide) rfl)

/-- With disposition `lnone` the `open` request is `open(path, flags | O_NONBLOCK)`
under every mechanism. -/
theorem openCall_none (sys : Sys) (path : String) (flags : Nat) (locktype : Int) :
    openCall sys path flags Lock.lnone locktype = Call.open path (flags ||| sys.O_NONBLOCK) := by
  unfold openCall openFlags locks
  split_ifs <;> simp

/-- C5, amended: a disposition `lnone` removes that party's lock step, not the
other conditions of the verdict.  When party A's disposition is `lnone`, a run
of `test` that returns a value returns true exactly when party A's `open`
succeeded and the wait status of the child satisfies `WIFEXITED` with
`WEXITSTATUS` 0.  When party B's disposition is `lnone`, a run ends in `exit(0)`
exactly when it is the child (party A's `open` and `lock` succeeded and `fork`
answered 0) and party B's `open` succeeded. -/
theorem test_lnone_verdict (sys : Sys) (os : OS) (verbose : Int) (tr : List Ev)
    (path1 : String) (flags1 : Nat) (lock1 : Lock) (locktype1 : Int)
    (path2 : String) (flags2 : Nat) (lock2 : Lock) (locktype2 : Int) :
    (∀ b, (test sys os verbose tr path1 flags1 Lock.lnone locktype1
          path2 flags2 lock2 locktype2).1 = Outcome.ret b →
      (b = true ↔ ∃ fd1 pid status,
        fd1 = os (calls tr) (Call.open path1 (flags1 ||| sys.O_NONBLOCK)) ∧ 0 ≤ fd1 ∧
        pid = os (calls tr ++ [(Call.open path1 (flags1 ||| sys.O_NONBLOCK), fd1)])
          Call.fork ∧
        status = os (calls tr ++ [(Call.open path1 (flags1 ||| sys.O_NONBLOCK), fd1),
          (Call.fork, pid)]) (Call.waitpid pid 0) ∧
        sys.WIFEXITED status = true ∧ sys.WEXITSTATUS status = 0)) ∧
    ((test sys os verbose tr path1 flags1 lock1 locktype1
          path2 flags2 Lock.lnone locktype2).1 = Outcome.exit 0 ↔
      ∃ fd1 note trA fd2,
        fd1 = os (calls tr) (openCall sys path1 flags1 lock1 locktype1) ∧ 0 ≤ fd1 ∧
        calls note = [] ∧
        lock sys os verbose
          (tr ++ Ev.call (openCall sys path1 flags1 lock1 locktype1) fd1 :: note)
          fd1 lock1 locktype1 = (Outcome.ret true, trA) ∧
        os (calls trA) Call.fork = 0 ∧
        fd2 = os (calls trA ++ [(Call.fork, 0)])
          (Call.open path2 (flags2 ||| sys.O_NONBLOCK)) ∧
        0 ≤ fd2) := by
  constructor
  · intro b hb
    rw [(test_verdict_aux sys os verbose tr path1 flags1 Lock.lnone locktype1
      path2 flags2 lock2 locktype2).1 b hb]
    simp only [openCall_none, lock_none_eq, Prod.mk.injEq, true_and]
    constructor
    · rintro ⟨fd1, note, trA, pid, status, hfd1, hpos, hnote, htrA, hpid, hstatus, hw1, hw2⟩
      subst htrA
      simp only [calls_append, calls_cons_call, hnote, List.append_assoc, List.cons_append,
        List.nil_append] at hpid hstatus
      exact ⟨fd1, pid, status, hfd1, hpos, hpid, hstatus, hw1, hw2⟩
    · rintro ⟨fd1, pid, status, hfd1, hpos, hpid, hstatus, hw1, hw2⟩
      refine ⟨fd1, [], _, pid, status, hfd1, hpos, rfl, rfl, ?_, ?_, hw1, hw2⟩
      · simpa using hpid
      · simpa using hstatus
  · rw [(test_verdict_aux sys os verbose tr path1 flags1 lock1 locktype1
      path2 flags2 Lock.lnone locktype2).2.1]
    simp only [openCall_none, lock_none_eq, Prod.mk.injEq, true_and]
    constructor
    · rintro ⟨fd1, note, trA, fd2, note2, trB, hfd1, hpos, hnote, hlockA, hpid, hfd2, hpos2,
        -, -⟩
      exact ⟨fd1, note, trA, fd2, hfd1, hpos, hnote, hlockA, hpid, hfd2, hpos2⟩
    · rintro ⟨fd1, note, trA, fd2, hfd1, hpos, hnote, hlockA, hpid, hfd2, hpos2⟩
      exact ⟨fd1, note, trA, fd2, [], _, hfd1, hpos, hnote, hlockA, hpid, hfd2, hpos2, rfl,
        rfl⟩

end Lockchart
